import Mathlib

/-!
# Pyramid accumulation strategy engine — verification development

Shallow embedding of the level/anchor trading state machine of the
pyramid-strategy service (`levelService.js`, `positionService.js`,
`pyramidStrategyService.js`).  Decimal prices are modelled as exact
rationals; JavaScript `Math.round`/`Math.floor` become `⌊· + 1/2⌋` and
`Int.floor`; `null`/`undefined` become `Option`; thrown exceptions become
`Except.error`.  The per-symbol maps of the source (one engine instance
manages a single symbol) are flattened into a single engine state.
-/

namespace Pyramid

/-- JavaScript `Math.round`: round half toward positive infinity. -/
def jsRound (q : ℚ) : ℤ := ⌊q + 1/2⌋

/-- `Math.round(q * 100) / 100` — round to 2 decimal places, as used
throughout `levelService.js`. -/
def round2 (q : ℚ) : ℚ := (jsRound (q * 100) : ℚ) / 100

/-- `config.STRATEGY.sellThresholdCents / 100` (=14 cents). -/
def sellThreshold : ℚ := 14 / 100

/-- `config.STRATEGY.baseDollarAmount`. -/
def baseDollarAmount : ℚ := 3000

/-- Per-level state string of `levelService.levelStates.below`:
`undefined` ↦ `untouched`, `'bought'`, `'sold'`. -/
inductive LvlState
  | untouched
  | bought
  | sold
deriving DecidableEq, Repr

/-- `position_tracking.status`: `'ACTIVE'` or `'CLOSED'`. -/
inductive PStatus
  | active
  | closed
deriving DecidableEq, Repr

/-- A row of `position_tracking` (the fields the engine reads/writes). -/
structure Position where
  id : ℕ
  price : ℚ            -- entry price
  units : ℤ
  totalValue : ℚ
  level : ℕ            -- threshold_level
  dollarAmount : ℚ
  status : PStatus
  isAnchor : Bool
  closedPrice : Option ℚ
deriving DecidableEq, Repr

/-- A row of `level_accumulation` (PositionService.addToLevelAccumulation). -/
structure AccRecord where
  level : ℕ
  buyPrice : ℚ
  units : ℤ
  totalValue : ℚ
  originalPositionId : ℕ
deriving DecidableEq, Repr

/-- The in-memory engine state: `LevelService` fields plus the position and
accumulation tables and the strategy service's `lastPrices[symbol]`.

`levelService.levels` is always either empty (at construction) or the full
1..10 below/above dictionary produced by `calculateLevels` from the highest
price current at the last recalculation; we record that base price
(`ladderBase = none` ↦ empty dictionaries).  `levelStates.above` and the
`above_*` buy counters are never written by the engine, so only the `below`
maps are carried. -/
structure EngineState where
  highestPrice : Option ℚ
  ladderBase : Option ℚ
  stateBelow : ℕ → LvlState
  buyCountBelow : ℕ → ℕ
  anchorLevel : Option ℕ
  positions : List Position
  accumulations : List AccRecord
  lastPrice : Option ℚ
  nextId : ℕ
  testMode : Bool

/-- The constructor state of the service (no highest price, empty levels,
no states, no anchor, no positions). -/
def initState : EngineState where
  highestPrice := none
  ladderBase := none
  stateBelow := fun _ => LvlState.untouched
  buyCountBelow := fun _ => 0
  anchorLevel := none
  positions := []
  accumulations := []
  lastPrice := none
  nextId := 1
  testMode := false

/-! ## LevelService: the ladder -/

/-- Below-level price for level `i`, reference `h`, step `step` percent:
`Math.round(h * (1 - i*step/100) * 100) / 100` (calculateLevels, below loop;
the source hard-codes `step = 3.0`). -/
def levelPriceBelowStep (h step : ℚ) (i : ℕ) : ℚ :=
  round2 (h * (1 - (i * step) / 100))

/-- Above-level price for level `i` and reference `h`
(calculateLevels, above loop). -/
def levelPriceAboveStep (h step : ℚ) (i : ℕ) : ℚ :=
  round2 (h * (1 + (i * step) / 100))

/-- `this.levels.below[i].price` after `calculateLevels` with highest `h`. -/
def levelPriceBelow (h : ℚ) (i : ℕ) : ℚ := levelPriceBelowStep h 3 i

/-- `this.levels.above[i].price` after `calculateLevels` with highest `h`. -/
def levelPriceAbove (h : ℚ) (i : ℕ) : ℚ := levelPriceAboveStep h 3 i

/-- `this.levels.below[i]?.price` — `none` when the dictionaries are empty
or the index is outside 1..10. -/
def belowLevelPrice (s : EngineState) (i : ℕ) : Option ℚ :=
  s.ladderBase.bind fun b =>
    if 1 ≤ i ∧ i ≤ 10 then some (levelPriceBelow b i) else none

/-- `this.levels.above[i]?.price`. -/
def aboveLevelPrice (s : EngineState) (i : ℕ) : Option ℚ :=
  s.ladderBase.bind fun b =>
    if 1 ≤ i ∧ i ≤ 10 then some (levelPriceAbove b i) else none

/-- `Object.entries(this.levels.below)` in ascending integer-key order:
the (level, price) pairs for levels 1..10, empty when no ladder exists. -/
def belowEntries (s : EngineState) : List (ℕ × ℚ) :=
  match s.ladderBase with
  | none => []
  | some b => (List.range' 1 10).map fun i => (i, levelPriceBelow b i)

/-- `calculateLevels`: throws without a highest price, otherwise rebuilds
both dictionaries from the current highest price. -/
def calculateLevels (s : EngineState) : Except String EngineState :=
  match s.highestPrice with
  | none => .error "Cannot calculate levels without highest price from database"
  | some h => .ok { s with ladderBase := some h }

/-! ## LevelService: sell triggers, level state, anchor -/

/-- Cascade body of `getSellTriggerPrice` once the highest price `h` is
known (ladder lookups against dictionaries with base `lad`):
level 1 sells at above-level 1 − 14¢, level 2 at highest − 14¢,
levels 3..10 at below-level (k−2) − 14¢, anything else `null`. -/
def sellTriggerAux (h : ℚ) (lad : Option ℚ) (buyLevel : ℕ) : Option ℚ :=
  if buyLevel = 1 then
    (lad.map fun b => round2 (levelPriceAbove b 1 - sellThreshold))
  else if buyLevel = 2 then
    some (round2 (h - sellThreshold))
  else if 3 ≤ buyLevel ∧ buyLevel ≤ 10 then
    (lad.map fun b => round2 (levelPriceBelow b (buyLevel - 2) - sellThreshold))
  else
    none

/-- `getSellTriggerPrice(buyLevel)`: throws when `highestPrice` is unset. -/
def getSellTriggerPrice (s : EngineState) (buyLevel : ℕ) : Except String (Option ℚ) :=
  match s.highestPrice with
  | none => .error "Cannot calculate sell trigger without highest price from database"
  | some h => .ok (sellTriggerAux h s.ladderBase buyLevel)

/-- `markLevelAsBought(level, 'below')`: sets the state to bought and
increments the level's buy counter (the engine only ever passes 'below'). -/
def markLevelAsBought (s : EngineState) (level : ℕ) : EngineState :=
  { s with
    stateBelow := fun i => if i = level then LvlState.bought else s.stateBelow i
    buyCountBelow := fun i => if i = level then s.buyCountBelow level + 1 else s.buyCountBelow i }

/-- `markLevelAsSold(level, 'below')`. -/
def markLevelAsSold (s : EngineState) (level : ℕ) : EngineState :=
  { s with
    stateBelow := fun i => if i = level then LvlState.sold else s.stateBelow i }

/-- `setAnchorLevel(level)`. -/
def setAnchorLevel (s : EngineState) (level : ℕ) : EngineState :=
  { s with anchorLevel := some level }

/-- `isAnchorLevel(level)`. -/
def isAnchorLevel (s : EngineState) (level : ℕ) : Bool :=
  s.anchorLevel == some level

/-- One step of `relocateAnchorToClosestLevel`'s scan: keep the first level
whose `|price − oldAnchorPrice|` is strictly smaller than the best so far
(the accumulator starts as `closestLevel = null`,
`smallestDifference = Infinity`; `none` models that initial pair). -/
def relocStep (oldAnchorPrice : ℚ) (acc : Option (ℕ × ℚ)) (e : ℕ × ℚ) :
    Option (ℕ × ℚ) :=
  let difference := |e.2 - oldAnchorPrice|
  match acc with
  | none => some (e.1, difference)
  | some (cl, sd) =>
      if difference < sd then some (e.1, difference) else some (cl, sd)

/-- The level selected by `relocateAnchorToClosestLevel`'s loop. -/
def relocClosest (entries : List (ℕ × ℚ)) (oldAnchorPrice : ℚ) : Option ℕ :=
  (entries.foldl (relocStep oldAnchorPrice) none).map Prod.fst

/-- `relocateAnchorToClosestLevel(oldAnchorPrice)`. -/
def relocateAnchorToClosestLevel (s : EngineState) (oldAnchorPrice : ℚ) : EngineState :=
  match relocClosest (belowEntries s) oldAnchorPrice with
  | some closestLevel => setAnchorLevel s closestLevel
  | none => s

/-- `shouldRecalculateLevels(currentPrice, _)`: recalculate when no levels
exist yet, or when the price reaches the first above-level. -/
def shouldRecalculateLevels (s : EngineState) (currentPrice : ℚ) : Bool :=
  match s.ladderBase with
  | none => true
  | some b => currentPrice ≥ levelPriceAbove b 1

/-- `updateHighestPrice(currentPrice)`: on a new high, record it and, if the
price reached the first above-level, recompute the ladder and relocate the
anchor to the level closest to the old anchor price (captured against the
old ladder; `if (oldAnchorPrice)` is JavaScript truthiness, so a zero price
also skips relocation). -/
def updateHighestPrice (s : EngineState) (currentPrice : ℚ) : EngineState :=
  if (match s.highestPrice with | none => true | some h => currentPrice > h) then
    let s0 := { s with highestPrice := some currentPrice }
    if shouldRecalculateLevels s currentPrice then
      let oldAnchorPrice : Option ℚ :=
        match s.anchorLevel with
        | some a => belowLevelPrice s a
        | none => none
      let s1 := { s0 with ladderBase := some currentPrice }
      match oldAnchorPrice with
      | some p => if p ≠ 0 then relocateAnchorToClosestLevel s1 p else s1
      | none => s1
    else s0
  else s

/-! ## LevelService: buy triggers -/

/-- An element of the array returned by `getAllTriggeredLevels`
(`{...data, isRebuy, buyCount}`). -/
structure TrigLevel where
  level : ℕ
  price : ℚ
  percentage : ℚ
  isRebuy : Bool
  buyCount : ℕ
deriving DecidableEq, Repr

/-- `getAllTriggeredLevels(price, lastPrice)`: no triggers unless the price
is dropping; a below level is triggered when the price has dropped through
it this tick (`price ≤ levelPrice` and the last price, if any, was above it)
and its state is untouched or sold (sold = rebuy); the result is sorted
ascending by level price. -/
def getAllTriggeredLevels (s : EngineState) (price : ℚ) (lastPrice : Option ℚ) :
    List TrigLevel :=
  if (match lastPrice with | some lp => decide (price ≥ lp) | none => false) then []
  else
    let triggeredLevels := (belowEntries s).filterMap fun e =>
      let hasDroppedThrough : Bool :=
        decide (price ≤ e.2) &&
          (match lastPrice with | none => true | some q => decide (q > e.2))
      if hasDroppedThrough then
        match s.stateBelow e.1 with
        | LvlState.bought => none
        | st => some ⟨e.1, e.2, -((e.1 : ℚ) * 3), st == LvlState.sold, s.buyCountBelow e.1⟩
      else none
    triggeredLevels.mergeSort fun a b => a.price ≤ b.price

/-! ## PositionService -/

/-- `calculateBuyDollarAmountForLevel(level, _)`: `baseDollarAmount * level`
(the per-level buy count argument is ignored by the source). -/
def calculateBuyDollarAmountForLevel (level : ℕ) : ℚ :=
  baseDollarAmount * level

/-- `createBuyPosition(symbol, price, level, buyCount, isAnchor)`. -/
def createBuyPosition (s : EngineState) (price : ℚ) (level : ℕ) (isAnchor : Bool) :
    EngineState × Position :=
  let dollarAmount := calculateBuyDollarAmountForLevel level
  let units : ℤ := ⌊dollarAmount / price⌋
  let totalValue : ℚ := units * price
  let pos : Position :=
    { id := s.nextId, price := price, units := units, totalValue := totalValue
      level := level, dollarAmount := dollarAmount, status := PStatus.active
      isAnchor := isAnchor, closedPrice := none }
  ({ s with positions := s.positions ++ [pos], nextId := s.nextId + 1 }, pos)

/-- `SELECT * FROM position_tracking WHERE id = $1` (rows are appended in
creation order). -/
def findPosition (s : EngineState) (pid : ℕ) : Option Position :=
  s.positions.find? fun p => p.id == pid

/-- `getActiveBuyPositions(symbol)` (`ORDER BY created_at ASC` = insertion
order of the list). -/
def getActiveBuyPositions (s : EngineState) : List Position :=
  s.positions.filter fun p => p.status == PStatus.active

/-- `getPositionForLevel(symbol, level)`: the latest active position at the
level (`ORDER BY created_at DESC LIMIT 1`). -/
def getPositionForLevel (s : EngineState) (level : ℕ) : Option Position :=
  (s.positions.filter fun p => p.level == level && p.status == PStatus.active).getLast?

/-- `updatePositionAnchorFlag(positionId, isAnchor)`. -/
def updatePositionAnchorFlag (s : EngineState) (pid : ℕ) (isAnchor : Bool) : EngineState :=
  { s with positions := s.positions.map fun p =>
      if p.id == pid then { p with isAnchor := isAnchor } else p }

/-- `addToExistingPosition(positionId, additionalUnits, additionalValue)`. -/
def addToExistingPosition (s : EngineState) (pid : ℕ) (addUnits : ℤ) (addValue : ℚ) :
    EngineState :=
  { s with positions := s.positions.map fun p =>
      if p.id == pid then
        { p with units := p.units + addUnits, totalValue := p.totalValue + addValue }
      else p }

/-- The `sellDetails` of `closePosition`'s return value. -/
structure CloseResult where
  updated : Position
  unitsSold : ℤ
  unitsKept : ℤ
  sellPrice : ℚ
  dollarAmount : ℚ
deriving Repr

/-- `closePosition(positionId, sellPrice, sellLevel)`: dollar-amount based
selling.  `unitsToSell = floor(dollar_amount / sellPrice)`;
`remainingUnits = max(0, units − unitsToSell)` go to the accumulation
table at the original entry price; the position row is always marked
CLOSED.  Throws only when the row does not exist. -/
def closePosition (s : EngineState) (pid : ℕ) (sellPrice : ℚ) :
    Except String (EngineState × CloseResult) :=
  match findPosition s pid with
  | none => .error "Position not found"
  | some position =>
    let dollarAmount := position.dollarAmount
    let unitsToSell : ℤ := ⌊dollarAmount / sellPrice⌋
    let remainingUnits : ℤ := max 0 (position.units - unitsToSell)
    let actualUnitsToSell : ℤ := min unitsToSell position.units
    let s1 :=
      if remainingUnits > 0 then
        { s with accumulations := s.accumulations ++
            [{ level := position.level, buyPrice := position.price
               units := remainingUnits, totalValue := remainingUnits * position.price
               originalPositionId := position.id }] }
      else s
    let updated := { position with status := PStatus.closed, closedPrice := some sellPrice }
    let s2 := { s1 with positions := s1.positions.map fun p =>
        if p.id == pid then updated else p }
    .ok (s2, { updated := updated, unitsSold := actualUnitsToSell
               unitsKept := remainingUnits, sellPrice := sellPrice
               dollarAmount := dollarAmount })

/-- An element of the array returned by `PositionService.checkSellTriggers`. -/
structure SellOrder where
  position : Position
  sellTriggerPrice : ℚ
  sellLevel : ℕ
deriving DecidableEq, Repr

/-- The per-position body of the loop in
`PositionService.checkSellTriggers`: flag the position when
`sellTriggerPrice && currentPrice >= sellTriggerPrice && !isAnchor` (the
first conjunct is JavaScript truthiness, so a `null` or zero trigger is
never flagged). -/
def sellOrderOf (s : EngineState) (h currentPrice : ℚ) (position : Position) :
    Option SellOrder :=
  let sellTriggerPrice := sellTriggerAux h s.ladderBase position.level
  let isAnchor := isAnchorLevel s position.level
  match sellTriggerPrice with
  | some t =>
      if t ≠ 0 ∧ currentPrice ≥ t ∧ isAnchor = false then
        some { position := position, sellTriggerPrice := t, sellLevel := position.level }
      else none
  | none => none

/-- `PositionService.checkSellTriggers(symbol, currentPrice, levelService)`:
sort the active positions ascending by entry price, and flag each whose
sell-trigger price is reached.  `getSellTriggerPrice` throws when the
highest price is unset, which can only be observed when there is an active
position to evaluate. -/
def checkSellTriggersPS (s : EngineState) (currentPrice : ℚ) :
    Except String (List SellOrder) :=
  match s.highestPrice with
  | none =>
      if (getActiveBuyPositions s).isEmpty then .ok [] else
        .error "Cannot calculate sell trigger without highest price from database"
  | some h =>
      .ok (((getActiveBuyPositions s).mergeSort fun a b => a.price ≤ b.price).filterMap
        (sellOrderOf s h currentPrice))

/-! ## PyramidStrategyService -/

/-- The notifications the tick emits (higher-price, buy, sell). -/
inductive Event
  | newHigh (price previousHigh : ℚ)
  | buy (level : ℕ) (price : ℚ) (units : ℤ) (dollarAmount : ℚ) (isRebuy isAnchor : Bool)
  | sell (positionId : ℕ) (level : ℕ) (buyPrice sellPrice : ℚ)
      (unitsSold unitsKept : ℤ) (profit : ℚ)
deriving DecidableEq, Repr

/-- `checkHigherPriceTrigger(symbol, price)`: a notification only, no state
change (`price > null` is `price > 0` in JavaScript; the previous-high
field is reported as 0 in that degenerate case). -/
def checkHigherPriceTrigger (s : EngineState) (price : ℚ) : List Event :=
  if (match s.highestPrice with
      | none => decide (price > 0)
      | some h => decide (price > h)) then
    [Event.newHigh price (s.highestPrice.getD 0)]
  else []

/-- One iteration of the sell loop of
`PyramidStrategyService.checkSellTriggers`: skip original-anchor positions
(`position.is_anchor`), otherwise close the position via dollar-amount
selling, mark its level sold, and emit the sell notification. -/
def sellStep (price : ℚ) (acc : EngineState × List Event) (o : SellOrder) :
    Except String (EngineState × List Event) :=
  if o.position.isAnchor then
    pure acc
  else do
    let (s', res) ← closePosition acc.1 o.position.id price
    let s'' := markLevelAsSold s' o.position.level
    let profit := (price - o.position.price) * (res.unitsSold : ℚ)
    pure (s'', acc.2 ++
      [Event.sell o.position.id o.position.level o.position.price price
        res.unitsSold res.unitsKept profit])

/-- The sell loop of `PyramidStrategyService.checkSellTriggers`. -/
def processSells (s : EngineState) (price : ℚ) (orders : List SellOrder) :
    Except String (EngineState × List Event) :=
  orders.foldlM (sellStep price) (s, [])

/-- The new-buy branch of the buy loop: create the position and then apply
the source's "double-check" that re-flags it when it should be the anchor
but was not created as one (dead in practice, kept for fidelity). -/
def createWithAnchorCheck (s : EngineState) (price : ℚ) (level : ℕ) (isAnchor : Bool) :
    EngineState :=
  let r := createBuyPosition s price level isAnchor
  if isAnchor = true ∧ r.2.isAnchor = false then
    updatePositionAnchorFlag r.1 r.2.id true
  else r.1

/-- One iteration of the buy loop of `checkBuyTriggers`: rebuy into the
existing active position when one exists and the trigger is a rebuy,
otherwise create a fresh position (anchor-flagged when the level is the
anchor level); then mark the level bought. -/
def processOneBuy (s : EngineState) (price : ℚ) (buyLevel : TrigLevel) :
    EngineState × Event :=
  let dollarAmount := calculateBuyDollarAmountForLevel buyLevel.level
  let units : ℤ := ⌊dollarAmount / price⌋
  let actualValue : ℚ := units * price
  let existingPosition := getPositionForLevel s buyLevel.level
  let isAnchor := isAnchorLevel s buyLevel.level
  let s1 :=
    match existingPosition, buyLevel.isRebuy with
    | some ep, true => addToExistingPosition s ep.id units actualValue
    | _, _ => createWithAnchorCheck s price buyLevel.level isAnchor
  let s2 := markLevelAsBought s1 buyLevel.level
  (s2, Event.buy buyLevel.level price units dollarAmount buyLevel.isRebuy isAnchor)

/-- `Math.max(...triggeredLevels.map(l => l.level))` (0 on the empty list;
the source only evaluates it on a non-empty list). -/
def maxLevel (ts : List TrigLevel) : ℕ :=
  ts.foldl (fun m t => max m t.level) 0

/-- The flag-synchronisation loop after an anchor move: every active
position's `is_anchor` becomes `threshold_level == deepestLevel` (the
source only issues an UPDATE when the flag differs, which is the same
function on states). -/
def syncAnchorFlags (s : EngineState) (deepestLevel : ℕ) : EngineState :=
  { s with positions := s.positions.map fun p =>
      if p.status == PStatus.active then
        { p with isAnchor := decide (p.level = deepestLevel) }
      else p }

/-- Tail of `checkBuyTriggers`: when levels triggered, the anchor becomes
the deepest (largest-index) triggered level if there is no anchor yet or it
is deeper than the current one, and the position flags are re-synced;
otherwise the anchor stays. -/
def updateAnchorAfterTriggers (s : EngineState) (triggeredLevels : List TrigLevel) :
    EngineState :=
  if triggeredLevels.isEmpty then s
  else
    let deepestLevel := maxLevel triggeredLevels
    match s.anchorLevel with
    | none => syncAnchorFlags (setAnchorLevel s deepestLevel) deepestLevel
    | some a =>
        if deepestLevel > a then
          syncAnchorFlags (setAnchorLevel s deepestLevel) deepestLevel
        else s

/-- One iteration of the buy loop of `checkBuyTriggers`. -/
def buyStep (price : ℚ) (acc : EngineState × List Event) (t : TrigLevel) :
    EngineState × List Event :=
  let r := processOneBuy acc.1 price t
  (r.1, acc.2 ++ [r.2])

/-- `checkBuyTriggers(symbol, price)`. -/
def checkBuyTriggers (s : EngineState) (price : ℚ) : EngineState × List Event :=
  let triggeredLevels := getAllTriggeredLevels s price s.lastPrice
  let folded := triggeredLevels.foldl (buyStep price) (s, [])
  (updateAnchorAfterTriggers folded.1 triggeredLevels, folded.2)

/-- `processPriceUpdate(symbol, price)` for an initialized service: higher
price notification, then sell triggers against the current (pre-update)
ladder, then the highest-price/ladder update (skipped in test mode;
`price > null` is `price > 0`), then buy triggers when the price is
dropping, then store the observation as the new last price. -/
def processPriceUpdate (s : EngineState) (price : ℚ) :
    Except String (EngineState × List Event) := do
  let highEvents := checkHigherPriceTrigger s price
  let lastPrice := s.lastPrice
  let sellOrders ← checkSellTriggersPS s price
  let (s1, sellEvents) ← processSells s price sellOrders
  let s2 :=
    if ((match s1.highestPrice with
        | none => decide (price > 0)
        | some h => decide (price > h)) && !s1.testMode) then
      updateHighestPrice s1 price
    else s1
  let s3e :=
    if (match lastPrice with | none => true | some lp => decide (price < lp)) then
      checkBuyTriggers s2 price
    else (s2, [])
  let s4 := { s3e.1 with lastPrice := some price }
  pure (s4, highEvents ++ sellEvents ++ s3e.2)

/-- The service's startup path once the highest price is known from the
database reduces to `updateHighestPrice` (there are no positions yet, so
the level-state rebuild is a no-op). -/
def initHighest (s : EngineState) (price : ℚ) : EngineState :=
  updateHighestPrice s price

/-- The startup path when the database holds no price data: the source logs
a warning and falls back to `updateHighestPrice(199.00)` — the highest
price is silently defaulted, not reported as an error. -/
def initNoData (s : EngineState) : EngineState :=
  updateHighestPrice s 199

/-! ## Specification-side definition (for the refinement comparison) -/

/-- The sell-trigger cascade exactly as the specification words it (no
re-rounding): level 1 → above-level-1 price − $0.14; level 2 →
reference/highest price − $0.14; level k ≥ 3 → below-level (k−2) price
− $0.14.  To be compared with `getSellTriggerPrice` from the source. -/
def specSellTriggerPrice (b h : ℚ) (k : ℕ) : ℚ :=
  if k = 1 then levelPriceAbove b 1 - sellThreshold
  else if k = 2 then h - sellThreshold
  else levelPriceBelow b (k - 2) - sellThreshold

/-! ## Concrete inputs used by the witnesses and counterexamples -/

/-- An engine whose ladder was computed from a highest price of 200 and
that has seen no trigger yet. -/
def sLadder200 : EngineState :=
  { initState with highestPrice := some 200, ladderBase := some 200 }

/-- An active, non-anchor level-1 position bought at 187. -/
def posL1 : Position :=
  { id := 1, price := 187, units := 16, totalValue := 2992, level := 1
    dollarAmount := 3000, status := PStatus.active, isAnchor := false
    closedPrice := none }

/-- The 200-ladder engine holding `posL1`, with the anchor at level 2. -/
def sHold1 : EngineState :=
  { sLadder200 with
    positions := [posL1]
    stateBelow := fun i => if i = 1 then LvlState.bought else LvlState.untouched
    buyCountBelow := fun i => if i = 1 then 1 else 0
    anchorLevel := some 2, lastPrice := some 187, nextId := 2 }

/-- The scenario position of the partial-sell example: 100 units bought at
$50 with a planned dollar amount of $3000. -/
def posPartial : Position :=
  { id := 1, price := 50, units := 100, totalValue := 5000, level := 2
    dollarAmount := 3000, status := PStatus.active, isAnchor := false
    closedPrice := none }

/-- The 200-ladder engine holding `posPartial`. -/
def sPartial : EngineState :=
  { sLadder200 with positions := [posPartial], nextId := 2 }

/-- An already-CLOSED position. -/
def posClosed6 : Position :=
  { id := 1, price := 50, units := 100, totalValue := 5000, level := 2
    dollarAmount := 3000, status := PStatus.closed, isAnchor := false
    closedPrice := some 55 }

/-- The 200-ladder engine holding only the closed position `posClosed6`. -/
def sClosed6 : EngineState :=
  { sLadder200 with positions := [posClosed6], nextId := 2 }

/-- An active anchor position at level 2. -/
def posAnchor6 : Position :=
  { id := 1, price := 188, units := 31, totalValue := 5828, level := 2
    dollarAmount := 6000, status := PStatus.active, isAnchor := true
    closedPrice := none }

/-- The 200-ladder engine holding the anchor position `posAnchor6`. -/
def sAnchor6 : EngineState :=
  { sLadder200 with positions := [posAnchor6], anchorLevel := some 2, nextId := 2 }

/-- A 200-ladder engine holding a single active non-anchor level-2 position
whose sell trigger (199.86) sits below the last observed price 199.90. -/
def sSellable : EngineState :=
  { sLadder200 with
    positions := [{ id := 1, price := 188, units := 31, totalValue := 5828, level := 2
                    dollarAmount := 6000, status := PStatus.active, isAnchor := false
                    closedPrice := none }]
    stateBelow := fun i => if i = 2 then LvlState.bought else LvlState.untouched
    buyCountBelow := fun i => if i = 2 then 1 else 0
    anchorLevel := none, lastPrice := some (1999/10), nextId := 2 }

/-- The price trace of the double-anchor run: start from a database high of
200, then observe 187 (buys levels 1 and 2, anchor to level 2), 219.07
(sells level 1, records a new high past the first above-level 206, so the
ladder recalculates and the anchor relocates to the new level 5), then 186
(buys levels 1, 3, 4 and 5; the level-5 buy is created anchor-flagged). -/
def demoTrace : List ℚ := [187, 21907/100, 186]

/-- The engine state after running `demoTrace`. -/
def runEngine : Except String EngineState :=
  demoTrace.foldlM (fun s p => (processPriceUpdate s p).map Prod.fst)
    (initHighest initState 200)

/-- Positions currently flagged as anchor. -/
def anchorFlagged (s : EngineState) : List Position :=
  s.positions.filter fun p => p.isAnchor

/-! # Lemmas and theorems -/

/-! ## Rounding arithmetic -/

theorem jsRound_le (x : ℚ) : (jsRound x : ℚ) ≤ x + 1/2 :=
  Int.floor_le _

theorem lt_jsRound (x : ℚ) : x - 1/2 < (jsRound x : ℚ) := by
  have h := Int.lt_floor_add_one (x + 1/2)
  unfold jsRound
  push_cast at h ⊢
  linarith

theorem round2_le (q : ℚ) : round2 q ≤ q + 1/200 := by
  have h := jsRound_le (q * 100)
  unfold round2
  linarith

theorem round2_ge (q : ℚ) : q - 1/200 ≤ round2 q := by
  have h := lt_jsRound (q * 100)
  unfold round2
  linarith

theorem jsRound_lt_jsRound {x y : ℚ} (h : x + 1 ≤ y) : jsRound x < jsRound y := by
  unfold jsRound
  have h1 : ⌊x + 1/2⌋ + 1 ≤ ⌊y + 1/2⌋ := by
    rw [Int.le_floor]
    have h2 : (⌊x + 1/2⌋ : ℚ) ≤ x + 1/2 := Int.floor_le _
    push_cast
    linarith
  omega

theorem round2_lt_round2 {x y : ℚ} (h : x * 100 + 1 ≤ y * 100) :
    round2 x < round2 y := by
  unfold round2
  have h1 : jsRound (x * 100) < jsRound (y * 100) := jsRound_lt_jsRound h
  have h2 : (jsRound (x * 100) : ℚ) < (jsRound (y * 100) : ℚ) := by exact_mod_cast h1
  linarith

theorem round2_cents {q : ℚ} (h : ∃ n : ℤ, q = (n : ℚ) / 100) : round2 q = q := by
  obtain ⟨n, rfl⟩ := h
  unfold round2 jsRound
  have h100 : (n : ℚ) / 100 * 100 = (n : ℚ) := by field_simp
  rw [h100]
  have hfl : ⌊(n : ℚ) + 1/2⌋ = n := by
    rw [add_comm, Int.floor_add_int]
    norm_num
  rw [hfl]

theorem round2_isCents (q : ℚ) : ∃ n : ℤ, round2 q = (n : ℚ) / 100 :=
  ⟨jsRound (q * 100), rfl⟩

theorem cents_sub_threshold {q : ℚ} (h : ∃ n : ℤ, q = (n : ℚ) / 100) :
    ∃ n : ℤ, q - sellThreshold = (n : ℚ) / 100 := by
  obtain ⟨n, rfl⟩ := h
  exact ⟨n - 14, by push_cast [sellThreshold]; ring⟩

/-! ## Ladder price facts -/

theorem levelPriceBelowStep_strictAnti {h step : ℚ} (hs : 1 ≤ h * step)
    {i j : ℕ} (hij : i < j) :
    levelPriceBelowStep h step j < levelPriceBelowStep h step i := by
  unfold levelPriceBelowStep
  apply round2_lt_round2
  have hji : (1 : ℚ) ≤ (j : ℚ) - (i : ℚ) := by
    have : (i : ℚ) + 1 ≤ (j : ℚ) := by exact_mod_cast hij
    linarith
  have key : (1 : ℚ) * 1 ≤ (h * step) * ((j : ℚ) - (i : ℚ)) :=
    mul_le_mul hs hji (by norm_num) (le_trans zero_le_one hs)
  have expand : (h * (1 - (i : ℚ) * step / 100)) * 100 -
      (h * (1 - (j : ℚ) * step / 100)) * 100 = (h * step) * ((j : ℚ) - (i : ℚ)) := by
    ring
  linarith

theorem levelPriceBelow_strictAnti {b : ℚ} (hb : 1 ≤ b) {i j : ℕ} (hij : i < j) :
    levelPriceBelow b j < levelPriceBelow b i := by
  unfold levelPriceBelow
  exact levelPriceBelowStep_strictAnti (by linarith) hij

theorem levelPriceBelow_lb {b : ℚ} (hb : 1 ≤ b) {i : ℕ} (hi : i ≤ 10) :
    139/200 ≤ levelPriceBelow b i := by
  unfold levelPriceBelow levelPriceBelowStep
  have h1 := round2_ge (b * (1 - ((i : ℚ) * 3) / 100))
  have hiq : (i : ℚ) ≤ 10 := by exact_mod_cast hi
  have h2 : (7 : ℚ)/10 ≤ 1 - (i : ℚ) * 3 / 100 := by linarith
  have h3 : (1 : ℚ) * (7/10) ≤ b * (1 - (i : ℚ) * 3 / 100) :=
    mul_le_mul hb h2 (by norm_num) (by linarith)
  linarith

theorem levelPriceAbove_lb {b : ℚ} (hb : 1 ≤ b) :
    205/200 ≤ levelPriceAbove b 1 := by
  unfold levelPriceAbove levelPriceAboveStep
  have h1 := round2_ge (b * (1 + ((1 : ℕ) : ℚ) * 3 / 100))
  have h3 : (1 : ℚ) * (103/100) ≤ b * (1 + ((1 : ℕ) : ℚ) * 3 / 100) :=
    mul_le_mul hb (by norm_num) (by norm_num) (by linarith)
  linarith

theorem levelPriceBelow_lt_self {p : ℚ} (hp : 1 ≤ p) {i : ℕ} (hi : 1 ≤ i) :
    levelPriceBelow p i < p := by
  unfold levelPriceBelow levelPriceBelowStep
  have h1 := round2_le (p * (1 - ((i : ℚ) * 3) / 100))
  have hiq : (1 : ℚ) ≤ (i : ℚ) := by exact_mod_cast hi
  have key : (1 : ℚ) * 1 ≤ p * (i : ℚ) :=
    mul_le_mul hp hiq (by norm_num) (by linarith)
  nlinarith

/-! ## C8 -/

/-- C8 counterexample: for the reference price 0.10 (with the source's 3%
step) the computed below-ladder prices at levels 2 and 3 both round to
$0.09, so the below-ladder is not strictly decreasing for every reference
price, contrary to the claim. -/
theorem C8_counterexample :
    levelPriceBelowStep (1/10) 3 2 = 9/100 ∧
    levelPriceBelowStep (1/10) 3 3 = 9/100 ∧
    ¬ levelPriceBelowStep (1/10) 3 3 < levelPriceBelowStep (1/10) 3 2 := by
  refine ⟨by norm_num [levelPriceBelowStep, round2, jsRound], ?_, ?_⟩
  · norm_num [levelPriceBelowStep, round2, jsRound]
  · norm_num [levelPriceBelowStep, round2, jsRound]

/-- C8 (amended): the below-ladder prices equal
`reference × (1 − i×step/100)` rounded to cents for every level, and they
are strictly decreasing in the level index provided one ladder step is at
least one cent, i.e. `reference × step ≥ 1` (equivalently
`reference × step/100 ≥ $0.01`); `calculateLevels` instantiates the ladder
at `step = 3` from the current highest price. -/
theorem C8_ladder_formula_and_monotone :
    (∀ (reference step : ℚ) (i : ℕ),
        levelPriceBelowStep reference step i =
          round2 (reference * (1 - ((i : ℚ) * step) / 100))) ∧
    (∀ (reference step : ℚ), 1 ≤ reference * step →
        ∀ i j : ℕ, i < j →
          levelPriceBelowStep reference step j < levelPriceBelowStep reference step i) ∧
    (∀ (s : EngineState) (h : ℚ) (s' : EngineState),
        s.highestPrice = some h → calculateLevels s = .ok s' →
        ∀ i : ℕ, 1 ≤ i → i ≤ 10 → belowLevelPrice s' i = some (levelPriceBelow h i)) := by
  refine ⟨fun _ _ _ => rfl, fun _ _ hs _ _ hij => levelPriceBelowStep_strictAnti hs hij,
    fun s h s' hh hcalc i hi1 hi10 => ?_⟩
  unfold calculateLevels at hcalc
  rw [hh] at hcalc
  simp only [Except.ok.injEq] at hcalc
  subst hcalc
  simp [belowLevelPrice, hi1, hi10]

/-- C8 witness: for the ladder of the running example (reference 200,
step 3) the level-2 price 188 is strictly below the level-1 price 194, and
the engine ladder after `calculateLevels` at highest 200 exposes them. -/
theorem C8_witness :
    (1 : ℚ) ≤ 200 * 3 ∧
    levelPriceBelowStep 200 3 2 < levelPriceBelowStep 200 3 1 ∧
    belowLevelPrice sLadder200 1 = some (levelPriceBelow 200 1) :=
  ⟨by norm_num,
   C8_ladder_formula_and_monotone.2.1 200 3 (by norm_num) 1 2 (by norm_num),
   C8_ladder_formula_and_monotone.2.2
     { initState with highestPrice := some 200 } 200 sLadder200 rfl rfl 1
     (by norm_num) (by norm_num)⟩

/-! ## Buy-trigger membership -/

theorem mem_belowEntries {s : EngineState} {b : ℚ} (hlad : s.ladderBase = some b)
    {e : ℕ × ℚ} :
    e ∈ belowEntries s ↔ (1 ≤ e.1 ∧ e.1 ≤ 10 ∧ e.2 = levelPriceBelow b e.1) := by
  unfold belowEntries
  rw [hlad]
  constructor
  · intro hmem
    rcases List.mem_map.1 hmem with ⟨a, ha, hae⟩
    rcases List.mem_range'.1 ha with ⟨k, hk, rfl⟩
    cases hae
    exact ⟨by omega, by omega, rfl⟩
  · rintro ⟨h1, h10, hpr⟩
    apply List.mem_map.2
    refine ⟨e.1, List.mem_range'.2 ⟨e.1 - 1, by omega, by omega⟩, ?_⟩
    cases e
    simp_all

theorem triggered_shape {s : EngineState} {b : ℚ} (hlad : s.ladderBase = some b)
    {price : ℚ} {lastPrice : Option ℚ} {t : TrigLevel}
    (ht : t ∈ getAllTriggeredLevels s price lastPrice) :
    1 ≤ t.level ∧ t.level ≤ 10 ∧ t.price = levelPriceBelow b t.level ∧
    price ≤ t.price ∧
    (∀ lp, lastPrice = some lp → t.price < lp) ∧
    s.stateBelow t.level ≠ LvlState.bought ∧
    t.isRebuy = (s.stateBelow t.level == LvlState.sold) := by
  cases lastPrice with
  | none =>
    unfold getAllTriggeredLevels at ht
    rw [if_neg (by simp)] at ht
    rw [List.mem_mergeSort] at ht
    rcases List.mem_filterMap.1 ht with ⟨e, he, hfe⟩
    rcases (mem_belowEntries hlad).1 he with ⟨he1, he10, hepr⟩
    simp only [Bool.and_true] at hfe
    split at hfe
    case isTrue hdt =>
      have hple' : price ≤ e.2 := of_decide_eq_true hdt
      rcases hst : s.stateBelow e.1 with _ | _ | _ <;> rw [hst] at hfe
      · cases hfe
        refine ⟨he1, he10, hepr, by simpa [hepr] using hple', ?_, ?_, ?_⟩
        · intro lp hlp
          cases hlp
        · simp [hst]
        · simp [hst]
      · cases hfe
      · cases hfe
        refine ⟨he1, he10, hepr, by simpa [hepr] using hple', ?_, ?_, ?_⟩
        · intro lp hlp
          cases hlp
        · simp [hst]
        · simp [hst]
    case isFalse => cases hfe
  | some lp0 =>
    unfold getAllTriggeredLevels at ht
    split at ht
    · simp at ht
    · rw [List.mem_mergeSort] at ht
      rcases List.mem_filterMap.1 ht with ⟨e, he, hfe⟩
      rcases (mem_belowEntries hlad).1 he with ⟨he1, he10, hepr⟩
      simp only at hfe
      split at hfe
      case isTrue hdt =>
        rw [Bool.and_eq_true] at hdt
        obtain ⟨hple, hlast⟩ := hdt
        have hple' : price ≤ e.2 := of_decide_eq_true hple
        have hlast' : e.2 < lp0 := of_decide_eq_true hlast
        rcases hst : s.stateBelow e.1 with _ | _ | _ <;> rw [hst] at hfe
        · cases hfe
          refine ⟨he1, he10, hepr, by simpa [hepr] using hple', ?_,
            by simp [hst], by simp [hst]⟩
          intro lp hlp
          cases hlp
          simpa [hepr] using hlast'
        · cases hfe
        · cases hfe
          refine ⟨he1, he10, hepr, by simpa [hepr] using hple', ?_,
            by simp [hst], by simp [hst]⟩
          intro lp hlp
          cases hlp
          simpa [hepr] using hlast'
      case isFalse => cases hfe

theorem triggered_complete {s : EngineState} {b : ℚ} (hlad : s.ladderBase = some b)
    {price : ℚ} {lastPrice : Option ℚ} {i : ℕ}
    (hi1 : 1 ≤ i) (hi10 : i ≤ 10)
    (hple : price ≤ levelPriceBelow b i)
    (hlast : ∀ lp, lastPrice = some lp → levelPriceBelow b i < lp)
    (hstate : s.stateBelow i ≠ LvlState.bought) :
    ∃ t ∈ getAllTriggeredLevels s price lastPrice, t.level = i := by
  have hmem : ((i, levelPriceBelow b i) : ℕ × ℚ) ∈ belowEntries s :=
    (mem_belowEntries hlad).2 ⟨hi1, hi10, rfl⟩
  cases lastPrice with
  | none =>
    unfold getAllTriggeredLevels
    rw [if_neg (by simp)]
    rcases hst : s.stateBelow i with _ | _ | _
    · refine ⟨⟨i, levelPriceBelow b i, -((i : ℚ) * 3), LvlState.untouched == LvlState.sold,
        s.buyCountBelow i⟩, ?_, rfl⟩
      rw [List.mem_mergeSort]
      exact List.mem_filterMap.2 ⟨(i, levelPriceBelow b i), hmem,
        by simp [hst, decide_eq_true hple]⟩
    · exact absurd hst hstate
    · refine ⟨⟨i, levelPriceBelow b i, -((i : ℚ) * 3), LvlState.sold == LvlState.sold,
        s.buyCountBelow i⟩, ?_, rfl⟩
      rw [List.mem_mergeSort]
      exact List.mem_filterMap.2 ⟨(i, levelPriceBelow b i), hmem,
        by simp [hst, decide_eq_true hple]⟩
  | some lp =>
    have hgt : levelPriceBelow b i < lp := hlast lp rfl
    unfold getAllTriggeredLevels
    rw [if_neg]
    · rcases hst : s.stateBelow i with _ | _ | _
      · refine ⟨⟨i, levelPriceBelow b i, -((i : ℚ) * 3), LvlState.untouched == LvlState.sold,
          s.buyCountBelow i⟩, ?_, rfl⟩
        rw [List.mem_mergeSort]
        exact List.mem_filterMap.2 ⟨(i, levelPriceBelow b i), hmem,
          by simp [hst, decide_eq_true hple, decide_eq_true hgt]⟩
      · exact absurd hst hstate
      · refine ⟨⟨i, levelPriceBelow b i, -((i : ℚ) * 3), LvlState.sold == LvlState.sold,
          s.buyCountBelow i⟩, ?_, rfl⟩
        rw [List.mem_mergeSort]
        exact List.mem_filterMap.2 ⟨(i, levelPriceBelow b i), hmem,
          by simp [hst, decide_eq_true hple, decide_eq_true hgt]⟩
    · simp only [decide_eq_true_eq]
      intro hge
      exact absurd hge (not_le.2 (lt_of_le_of_lt hple hgt))

theorem triggered_pairwise (s : EngineState) (price : ℚ) (lastPrice : Option ℚ) :
    (getAllTriggeredLevels s price lastPrice).Pairwise (fun a b => a.price ≤ b.price) := by
  unfold getAllTriggeredLevels
  split
  · simp
  · have h := @List.sorted_mergeSort TrigLevel
      (fun a b : TrigLevel => decide (a.price ≤ b.price))
      (fun a b c hab hbc =>
        decide_eq_true (le_trans (of_decide_eq_true hab) (of_decide_eq_true hbc)))
      (fun a b => by
        rcases le_total a.price b.price with h | h
        · simp [decide_eq_true h]
        · simp [decide_eq_true h])
    exact (h _).imp fun hab => of_decide_eq_true hab

/-! ## C2 -/

/-- C2 counterexample: with the 200-ladder untouched and no previous price,
a drop to 182.89 triggers levels 1 ($194) and 2 ($188), and the returned
array is ordered level 2 before level 1 (ascending by price, i.e. deepest
level first), not "lowest level index first" as the claim states. -/
theorem C2_counterexample :
    (getAllTriggeredLevels sLadder200 (18289/100) none).map TrigLevel.level = [2, 1] ∧
    ¬ ((getAllTriggeredLevels sLadder200 (18289/100) none).map TrigLevel.level).Sorted (· ≤ ·) := by
  constructor
  · with_unfolding_all decide
  · intro hsorted
    have h2 : (getAllTriggeredLevels sLadder200 (18289/100) none).map TrigLevel.level
        = [2, 1] := by with_unfolding_all decide
    rw [h2] at hsorted
    have := List.rel_of_sorted_cons hsorted 1 (by simp)
    omega

/-- C2 (amended): a below-level `i` is in the buy-triggered set iff
`price ≤ level[i].price` and (`previousPrice` is `null` or
`previousPrice > level[i].price`) and the level's state is Untouched or
Sold; a level triggered from Sold carries `isRebuy = true`; and the
triggered levels are sorted ascending by level price — which, the
below-ladder being decreasing in the index, puts the *highest* level index
(deepest level) first, not the lowest. -/
theorem C2_buy_trigger_set (s : EngineState) (b price : ℚ) (lastPrice : Option ℚ)
    (i : ℕ) (hlad : s.ladderBase = some b) (hi1 : 1 ≤ i) (hi10 : i ≤ 10) :
    ((∃ t ∈ getAllTriggeredLevels s price lastPrice, t.level = i) ↔
      (price ≤ levelPriceBelow b i ∧
       (lastPrice = none ∨ ∃ lp, lastPrice = some lp ∧ levelPriceBelow b i < lp) ∧
       (s.stateBelow i = LvlState.untouched ∨ s.stateBelow i = LvlState.sold))) ∧
    (∀ t ∈ getAllTriggeredLevels s price lastPrice,
        t.isRebuy = (s.stateBelow t.level == LvlState.sold)) ∧
    (getAllTriggeredLevels s price lastPrice).Pairwise (fun a b => a.price ≤ b.price) := by
  refine ⟨⟨?_, ?_⟩, fun t ht => ((triggered_shape hlad ht).2.2.2.2.2.2),
    triggered_pairwise s price lastPrice⟩
  · rintro ⟨t, ht, rfl⟩
    obtain ⟨h1, h10, hpr, hple, hlast, hnb, _⟩ := triggered_shape hlad ht
    refine ⟨by rwa [hpr] at hple, ?_, ?_⟩
    · cases hlp : lastPrice with
      | none => exact Or.inl rfl
      | some lp => exact Or.inr ⟨lp, rfl, by rw [← hpr]; exact hlast lp hlp⟩
    · rcases hst : s.stateBelow t.level with _ | _ | _
      · exact Or.inl rfl
      · exact absurd hst hnb
      · exact Or.inr rfl
  · rintro ⟨hple, hlastd, hstate⟩
    apply triggered_complete hlad hi1 hi10 hple
    · intro lp hlp
      rcases hlastd with hnone | ⟨lp', hlp', hgt⟩
      · rw [hnone] at hlp; cases hlp
      · rw [hlp'] at hlp; cases hlp; exact hgt
    · rcases hstate with h | h <;> simp [h]

/-- C2 witness: at the 200-ladder with no previous price and price 182.89,
level 2 is in the triggered set (its price $188 is above 182.89 and its
state is untouched), every triggered entry's rebuy flag matches its level
state, and the output is sorted ascending by price. -/
theorem C2_witness :
    ((∃ t ∈ getAllTriggeredLevels sLadder200 (18289/100) none, t.level = 2) ↔
      ((18289/100 : ℚ) ≤ levelPriceBelow 200 2 ∧
       ((none : Option ℚ) = none ∨
        ∃ lp, (none : Option ℚ) = some lp ∧ levelPriceBelow 200 2 < lp) ∧
       (sLadder200.stateBelow 2 = LvlState.untouched ∨
        sLadder200.stateBelow 2 = LvlState.sold))) ∧
    (∀ t ∈ getAllTriggeredLevels sLadder200 (18289/100) none,
        t.isRebuy = (sLadder200.stateBelow t.level == LvlState.sold)) ∧
    (getAllTriggeredLevels sLadder200 (18289/100) none).Pairwise
      (fun a b => a.price ≤ b.price) :=
  C2_buy_trigger_set sLadder200 200 (18289/100) none 2 rfl (by norm_num) (by norm_num)

/-! ## Evaluation and preservation lemmas -/

theorem closePosition_spec {s : EngineState} {pid : ℕ} {sp : ℚ} {P : Position}
    (hfind : findPosition s pid = some P) :
    closePosition s pid sp = .ok
      ({ s with
          accumulations := s.accumulations ++
            (if 0 < max 0 (P.units - ⌊P.dollarAmount / sp⌋) then
              [{ level := P.level, buyPrice := P.price
                 units := max 0 (P.units - ⌊P.dollarAmount / sp⌋)
                 totalValue := (max 0 (P.units - ⌊P.dollarAmount / sp⌋) : ℤ) * P.price
                 originalPositionId := P.id }] else [])
          positions := s.positions.map fun p =>
            if p.id == pid then
              { P with status := PStatus.closed, closedPrice := some sp }
            else p },
       { updated := { P with status := PStatus.closed, closedPrice := some sp }
         unitsSold := min ⌊P.dollarAmount / sp⌋ P.units
         unitsKept := max 0 (P.units - ⌊P.dollarAmount / sp⌋)
         sellPrice := sp, dollarAmount := P.dollarAmount }) := by
  unfold closePosition
  rw [hfind]
  by_cases hrem : 0 < max 0 (P.units - ⌊P.dollarAmount / sp⌋)
  · simp only [if_pos hrem]
  · simp only [if_neg hrem, List.append_nil]

theorem closePosition_preserves {s : EngineState} {pid : ℕ} {sp : ℚ}
    {s' : EngineState} {r : CloseResult}
    (h : closePosition s pid sp = .ok (s', r)) :
    s'.highestPrice = s.highestPrice ∧ s'.ladderBase = s.ladderBase ∧
    s'.anchorLevel = s.anchorLevel ∧ s'.lastPrice = s.lastPrice ∧
    s'.testMode = s.testMode ∧ s'.stateBelow = s.stateBelow ∧
    s'.buyCountBelow = s.buyCountBelow ∧ s'.nextId = s.nextId ∧
    ∃ tail, s'.accumulations = s.accumulations ++ tail := by
  cases hf : findPosition s pid with
  | none => rw [closePosition, hf] at h; cases h
  | some P =>
    rw [closePosition_spec hf] at h
    obtain ⟨hs, -⟩ : _ ∧ _ := by
      have := Except.ok.inj h
      exact ⟨congrArg Prod.fst this, congrArg Prod.snd this⟩
    subst hs
    exact ⟨rfl, rfl, rfl, rfl, rfl, rfl, rfl, rfl, _, rfl⟩

theorem markLevelAsSold_preserves (s : EngineState) (l : ℕ) :
    (markLevelAsSold s l).highestPrice = s.highestPrice ∧
    (markLevelAsSold s l).ladderBase = s.ladderBase ∧
    (markLevelAsSold s l).anchorLevel = s.anchorLevel ∧
    (markLevelAsSold s l).lastPrice = s.lastPrice ∧
    (markLevelAsSold s l).testMode = s.testMode ∧
    (markLevelAsSold s l).positions = s.positions ∧
    (markLevelAsSold s l).accumulations = s.accumulations ∧
    (markLevelAsSold s l).nextId = s.nextId :=
  ⟨rfl, rfl, rfl, rfl, rfl, rfl, rfl, rfl⟩

theorem sellStep_preserves {price : ℚ} {acc acc' : EngineState × List Event} {o : SellOrder}
    (h : sellStep price acc o = .ok acc') :
    acc'.1.highestPrice = acc.1.highestPrice ∧ acc'.1.ladderBase = acc.1.ladderBase ∧
    acc'.1.anchorLevel = acc.1.anchorLevel ∧ acc'.1.lastPrice = acc.1.lastPrice ∧
    acc'.1.testMode = acc.1.testMode ∧ acc'.1.nextId = acc.1.nextId ∧
    ∃ tail, acc'.1.accumulations = acc.1.accumulations ++ tail := by
  unfold sellStep at h
  split at h
  · cases h
    exact ⟨rfl, rfl, rfl, rfl, rfl, rfl, [], (List.append_nil _).symm⟩
  · cases hcp : closePosition acc.1 o.position.id price with
    | error e => rw [hcp] at h; cases h
    | ok pr =>
      rw [hcp] at h
      obtain ⟨s1, res⟩ := pr
      simp only [Except.bind, pure, Except.pure] at h
      cases h
      obtain ⟨h1, h2, h3, h4, h5, -, -, h8, tail, htail⟩ := closePosition_preserves hcp
      exact ⟨h1, h2, h3, h4, h5, h8, tail, htail⟩

theorem foldlM_sellStep_preserves {price : ℚ} :
    ∀ (orders : List SellOrder) (acc acc' : EngineState × List Event),
      orders.foldlM (sellStep price) acc = .ok acc' →
      acc'.1.highestPrice = acc.1.highestPrice ∧ acc'.1.ladderBase = acc.1.ladderBase ∧
      acc'.1.anchorLevel = acc.1.anchorLevel ∧ acc'.1.lastPrice = acc.1.lastPrice ∧
      acc'.1.testMode = acc.1.testMode ∧ acc'.1.nextId = acc.1.nextId ∧
      ∃ tail, acc'.1.accumulations = acc.1.accumulations ++ tail
  | [], acc, acc', h => by
      simp only [List.foldlM_nil, pure, Except.pure] at h
      cases h
      exact ⟨rfl, rfl, rfl, rfl, rfl, rfl, [], (List.append_nil _).symm⟩
  | o :: os, acc, acc', h => by
      rw [List.foldlM_cons] at h
      cases hstep : sellStep price acc o with
      | error e => rw [hstep] at h; cases h
      | ok acc1 =>
        rw [hstep] at h
        simp only [bind, Except.bind] at h
        obtain ⟨h1, h2, h3, h4, h5, h6, t1, ht1⟩ := sellStep_preserves hstep
        obtain ⟨g1, g2, g3, g4, g5, g6, t2, ht2⟩ := foldlM_sellStep_preserves os acc1 acc' h
        refine ⟨g1.trans h1, g2.trans h2, g3.trans h3, g4.trans h4, g5.trans h5,
          g6.trans h6, t1 ++ t2, ?_⟩
        rw [ht2, ht1, List.append_assoc]

theorem processSells_preserves {s : EngineState} {price : ℚ} {orders : List SellOrder}
    {s' : EngineState} {evs : List Event}
    (h : processSells s price orders = .ok (s', evs)) :
    s'.highestPrice = s.highestPrice ∧ s'.ladderBase = s.ladderBase ∧
    s'.anchorLevel = s.anchorLevel ∧ s'.lastPrice = s.lastPrice ∧
    s'.testMode = s.testMode ∧ s'.nextId = s.nextId ∧
    ∃ tail, s'.accumulations = s.accumulations ++ tail :=
  foldlM_sellStep_preserves orders (s, []) (s', evs) h

theorem processOneBuy_preserves (s : EngineState) (price : ℚ) (t : TrigLevel) :
    (processOneBuy s price t).1.highestPrice = s.highestPrice ∧
    (processOneBuy s price t).1.ladderBase = s.ladderBase ∧
    (processOneBuy s price t).1.anchorLevel = s.anchorLevel ∧
    (processOneBuy s price t).1.lastPrice = s.lastPrice ∧
    (processOneBuy s price t).1.testMode = s.testMode ∧
    (processOneBuy s price t).1.accumulations = s.accumulations := by
  have hc : ∀ isA, (createWithAnchorCheck s price t.level isA).highestPrice = s.highestPrice ∧
      (createWithAnchorCheck s price t.level isA).ladderBase = s.ladderBase ∧
      (createWithAnchorCheck s price t.level isA).anchorLevel = s.anchorLevel ∧
      (createWithAnchorCheck s price t.level isA).lastPrice = s.lastPrice ∧
      (createWithAnchorCheck s price t.level isA).testMode = s.testMode ∧
      (createWithAnchorCheck s price t.level isA).accumulations = s.accumulations := by
    intro isA
    unfold createWithAnchorCheck createBuyPosition updatePositionAnchorFlag
    dsimp only
    split <;> exact ⟨rfl, rfl, rfl, rfl, rfl, rfl⟩
  unfold processOneBuy
  rcases getPositionForLevel s t.level with _ | ep <;> rcases t.isRebuy with _ | _ <;>
    simp [markLevelAsBought, addToExistingPosition, hc (isAnchorLevel s t.level)]

theorem foldl_buyStep_preserves {price : ℚ} :
    ∀ (ts : List TrigLevel) (acc : EngineState × List Event),
      (ts.foldl (buyStep price) acc).1.highestPrice = acc.1.highestPrice ∧
      (ts.foldl (buyStep price) acc).1.ladderBase = acc.1.ladderBase ∧
      (ts.foldl (buyStep price) acc).1.anchorLevel = acc.1.anchorLevel ∧
      (ts.foldl (buyStep price) acc).1.lastPrice = acc.1.lastPrice ∧
      (ts.foldl (buyStep price) acc).1.testMode = acc.1.testMode ∧
      (ts.foldl (buyStep price) acc).1.accumulations = acc.1.accumulations
  | [], acc => ⟨rfl, rfl, rfl, rfl, rfl, rfl⟩
  | t :: ts, acc => by
      rw [List.foldl_cons]
      obtain ⟨g1, g2, g3, g4, g5, g6⟩ := foldl_buyStep_preserves ts (buyStep price acc t)
      obtain ⟨h1, h2, h3, h4, h5, h6⟩ := processOneBuy_preserves acc.1 price t
      exact ⟨g1.trans h1, g2.trans h2, g3.trans h3, g4.trans h4, g5.trans h5, g6.trans h6⟩

theorem updateAnchorAfterTriggers_preserves (s : EngineState) (ts : List TrigLevel) :
    (updateAnchorAfterTriggers s ts).highestPrice = s.highestPrice ∧
    (updateAnchorAfterTriggers s ts).ladderBase = s.ladderBase ∧
    (updateAnchorAfterTriggers s ts).lastPrice = s.lastPrice ∧
    (updateAnchorAfterTriggers s ts).testMode = s.testMode ∧
    (updateAnchorAfterTriggers s ts).accumulations = s.accumulations ∧
    (updateAnchorAfterTriggers s ts).stateBelow = s.stateBelow ∧
    (updateAnchorAfterTriggers s ts).buyCountBelow = s.buyCountBelow ∧
    (updateAnchorAfterTriggers s ts).nextId = s.nextId := by
  unfold updateAnchorAfterTriggers
  split
  · exact ⟨rfl, rfl, rfl, rfl, rfl, rfl, rfl, rfl⟩
  · dsimp only
    split
    · simp [syncAnchorFlags, setAnchorLevel]
    · split
      · simp [syncAnchorFlags, setAnchorLevel]
      · exact ⟨rfl, rfl, rfl, rfl, rfl, rfl, rfl, rfl⟩

theorem checkBuyTriggers_preserves (s : EngineState) (price : ℚ) :
    (checkBuyTriggers s price).1.highestPrice = s.highestPrice ∧
    (checkBuyTriggers s price).1.ladderBase = s.ladderBase ∧
    (checkBuyTriggers s price).1.lastPrice = s.lastPrice ∧
    (checkBuyTriggers s price).1.testMode = s.testMode ∧
    (checkBuyTriggers s price).1.accumulations = s.accumulations := by
  unfold checkBuyTriggers
  simp only []
  obtain ⟨g1, g2, g3, g4, g5, g6, g7, g8⟩ := updateAnchorAfterTriggers_preserves
    ((getAllTriggeredLevels s price s.lastPrice).foldl (buyStep price) (s, [])).1
    (getAllTriggeredLevels s price s.lastPrice)
  obtain ⟨h1, h2, h3, h4, h5, h6⟩ := foldl_buyStep_preserves
    (getAllTriggeredLevels s price s.lastPrice) (s, [])
  exact ⟨g1.trans h1, g2.trans h2, g3.trans h4, g4.trans h5, g5.trans h6⟩

theorem relocate_preserves (s : EngineState) (q : ℚ) :
    (relocateAnchorToClosestLevel s q).highestPrice = s.highestPrice ∧
    (relocateAnchorToClosestLevel s q).ladderBase = s.ladderBase ∧
    (relocateAnchorToClosestLevel s q).lastPrice = s.lastPrice ∧
    (relocateAnchorToClosestLevel s q).testMode = s.testMode ∧
    (relocateAnchorToClosestLevel s q).positions = s.positions ∧
    (relocateAnchorToClosestLevel s q).accumulations = s.accumulations ∧
    (relocateAnchorToClosestLevel s q).stateBelow = s.stateBelow ∧
    (relocateAnchorToClosestLevel s q).buyCountBelow = s.buyCountBelow ∧
    (relocateAnchorToClosestLevel s q).nextId = s.nextId := by
  unfold relocateAnchorToClosestLevel
  rcases relocClosest (belowEntries s) q with _ | c <;> simp [setAnchorLevel]

theorem updateHighestPrice_preserves (s : EngineState) (p : ℚ) :
    (updateHighestPrice s p).positions = s.positions ∧
    (updateHighestPrice s p).accumulations = s.accumulations ∧
    (updateHighestPrice s p).stateBelow = s.stateBelow ∧
    (updateHighestPrice s p).buyCountBelow = s.buyCountBelow ∧
    (updateHighestPrice s p).lastPrice = s.lastPrice ∧
    (updateHighestPrice s p).testMode = s.testMode ∧
    (updateHighestPrice s p).nextId = s.nextId := by
  unfold updateHighestPrice
  split
  · split
    · generalize (match s.anchorLevel with
        | some a => belowLevelPrice s a
        | none => none) = oap
      rcases oap with _ | q
      · exact ⟨rfl, rfl, rfl, rfl, rfl, rfl, rfl⟩
      · dsimp only
        split
        · obtain ⟨h1, h2, h3, h4, h5, h6, h7, h8, h9⟩ := relocate_preserves
            { s with highestPrice := some p, ladderBase := some p } q
          exact ⟨h5, h6, h7, h8, h3, h4, h9⟩
        · exact ⟨rfl, rfl, rfl, rfl, rfl, rfl, rfl⟩
    · exact ⟨rfl, rfl, rfl, rfl, rfl, rfl, rfl⟩
  · exact ⟨rfl, rfl, rfl, rfl, rfl, rfl, rfl⟩

theorem updateHighestPrice_highest {s : EngineState} {h : ℚ}
    (hh : s.highestPrice = some h) (p : ℚ) :
    (updateHighestPrice s p).highestPrice = if h < p then some p else some h := by
  unfold updateHighestPrice
  rw [hh]
  by_cases hlt : h < p
  · rw [if_pos (by simpa using hlt), if_pos hlt]
    split
    · generalize (match s.anchorLevel with
        | some a => belowLevelPrice s a
        | none => none) = oap
      rcases oap with _ | q
      · rfl
      · dsimp only
        split
        · obtain ⟨h1, -⟩ := relocate_preserves
            { s with highestPrice := some p, ladderBase := some p } q
          exact h1
        · rfl
    · rfl
  · rw [if_neg (by simpa using hlt), if_neg hlt, hh]

/-! ## Tick decomposition -/

theorem tick_parts {s : EngineState} {p : ℚ} {s' : EngineState} {evs : List Event}
    (hrun : processPriceUpdate s p = .ok (s', evs)) :
    ∃ orders s1 sevs,
      checkSellTriggersPS s p = .ok orders ∧
      processSells s p orders = .ok (s1, sevs) ∧
      ∃ s3 bevs,
        (s3, bevs) =
          (if (match s.lastPrice with | none => true | some lp => decide (p < lp)) then
            checkBuyTriggers
              (if ((match s1.highestPrice with
                   | none => decide (p > 0)
                   | some h => decide (p > h)) && !s1.testMode) then
                updateHighestPrice s1 p
              else s1) p
          else
            ((if ((match s1.highestPrice with
                  | none => decide (p > 0)
                  | some h => decide (p > h)) && !s1.testMode) then
                updateHighestPrice s1 p
              else s1), [])) ∧
        s' = { s3 with lastPrice := some p } ∧
        evs = checkHigherPriceTrigger s p ++ sevs ++ bevs := by
  unfold processPriceUpdate at hrun
  cases hso : checkSellTriggersPS s p with
  | error e => rw [hso] at hrun; simp [bind, Except.bind] at hrun
  | ok orders =>
    rw [hso] at hrun
    simp only [bind, Except.bind] at hrun
    cases hps : processSells s p orders with
    | error e => rw [hps] at hrun; simp at hrun
    | ok pr =>
      obtain ⟨s1, sevs⟩ := pr
      rw [hps] at hrun
      simp only [pure, Except.pure, Except.ok.injEq] at hrun
      refine ⟨orders, s1, sevs, rfl, ?_, ?_⟩
      · first
          | rfl
          | exact hps
      · cases hrun
        exact ⟨_, _, rfl, rfl, rfl⟩

theorem tick_acc_append {s : EngineState} {p : ℚ} {s' : EngineState} {evs : List Event}
    (hrun : processPriceUpdate s p = .ok (s', evs)) :
    ∃ tail, s'.accumulations = s.accumulations ++ tail := by
  obtain ⟨orders, s1, sevs, hso, hps, s3, bevs, hbuy, hs', -⟩ := tick_parts hrun
  obtain ⟨-, -, -, -, -, -, t1, ht1⟩ := processSells_preserves hps
  have hs3 : s3.accumulations = s1.accumulations := by
    have hs2 : (if ((match s1.highestPrice with
        | none => decide (p > 0)
        | some h => decide (p > h)) && !s1.testMode) then
          updateHighestPrice s1 p
        else s1).accumulations = s1.accumulations := by
      split
      · exact (updateHighestPrice_preserves s1 p).2.1
      · rfl
    split at hbuy
    · have := congrArg Prod.fst hbuy
      simp only at this
      rw [this]
      exact ((checkBuyTriggers_preserves _ p).2.2.2.2).trans hs2
    · have := congrArg Prod.fst hbuy
      simp only at this
      rw [this]
      exact hs2
  refine ⟨t1, ?_⟩
  rw [hs', ]
  show s3.accumulations = s.accumulations ++ t1
  rw [hs3, ht1]

/-! ## C10 -/

/-- C10: once set, the highest price never decreases across a tick; it is
replaced only when the observed price strictly exceeds it, and then it
becomes that price. -/
theorem C10_highest_monotone {s : EngineState} {p h : ℚ} (hh : s.highestPrice = some h)
    {s' : EngineState} {evs : List Event}
    (hrun : processPriceUpdate s p = .ok (s', evs)) :
    ∃ h', s'.highestPrice = some h' ∧ h ≤ h' ∧ (h' ≠ h → (h < p ∧ h' = p)) := by
  obtain ⟨orders, s1, sevs, hso, hps, s3, bevs, hbuy, hs', -⟩ := tick_parts hrun
  obtain ⟨e1, -, -, -, -, -, -⟩ := processSells_preserves hps
  have h1 : s1.highestPrice = some h := e1.trans hh
  rw [h1] at hbuy
  have hs3high : ∀ hcur,
      (if (decide (p > h) && !s1.testMode) then
        updateHighestPrice s1 p else s1).highestPrice = hcur →
      s3.highestPrice = hcur := by
    intro hcur hx
    split at hbuy
    · have := congrArg Prod.fst hbuy
      simp only at this
      rw [this]
      exact ((checkBuyTriggers_preserves _ p).1).trans hx
    · have := congrArg Prod.fst hbuy
      simp only at this
      rw [this]
      exact hx
  have hfinal : s'.highestPrice = s3.highestPrice := by rw [hs']
  by_cases hc : (decide (p > h) && !s1.testMode) = true
  · have hlt : h < p := by
      have := (Bool.and_eq_true _ _).mp hc
      exact of_decide_eq_true this.1
    have hx : (if (decide (p > h) && !s1.testMode) then
        updateHighestPrice s1 p else s1).highestPrice = some p := by
      rw [if_pos hc, updateHighestPrice_highest h1 p, if_pos hlt]
    refine ⟨p, ?_, le_of_lt hlt, fun _ => ⟨hlt, rfl⟩⟩
    rw [hfinal]
    exact hs3high _ hx
  · have hx : (if (decide (p > h) && !s1.testMode) then
        updateHighestPrice s1 p else s1).highestPrice = some h := by
      rw [if_neg hc]
      exact h1
    refine ⟨h, ?_, le_refl h, fun hne => absurd rfl hne⟩
    rw [hfinal]
    exact hs3high _ hx

/-- C10 witness: a tick of 190 against the 200-ladder engine leaves the
highest price at some value ≥ 200 that could only have moved to 190 had
190 exceeded 200. -/
theorem C10_witness :
    ∃ s' evs, processPriceUpdate sLadder200 190 = .ok (s', evs) ∧
      ∃ h', s'.highestPrice = some h' ∧ (200 : ℚ) ≤ h' ∧
        (h' ≠ 200 → ((200 : ℚ) < 190 ∧ h' = 190)) := by
  have hok : (processPriceUpdate sLadder200 190).toOption.isSome = true := by
    with_unfolding_all decide
  obtain ⟨r, hr⟩ : ∃ r, processPriceUpdate sLadder200 190 = .ok r := by
    cases hx : processPriceUpdate sLadder200 190 with
    | ok r => exact ⟨r, rfl⟩
    | error e => rw [hx] at hok; simp [Except.toOption] at hok
  obtain ⟨s', evs⟩ := r
  exact ⟨s', evs, hr, C10_highest_monotone rfl hr⟩

/-! ## C3 -/

/-- C3: closing a position sells `floor(dollarAmount / sellPrice)` units
capped at the held units, keeps the rest, conserves units
(`unitsSold + unitsKept = units` at close time), always marks the position
fully Closed, persists kept units as an accumulation record at the original
entry price, and accumulation records are append-only across every tick
(never re-entered or resold). -/
theorem C3_close_conservation (s : EngineState) (pid : ℕ) (sp : ℚ) (P : Position)
    (hfind : findPosition s pid = some P) :
    ∃ s' r, closePosition s pid sp = .ok (s', r) ∧
      r.unitsSold = min ⌊P.dollarAmount / sp⌋ P.units ∧
      r.unitsKept = P.units - r.unitsSold ∧
      r.unitsSold + r.unitsKept = P.units ∧
      r.updated.status = PStatus.closed ∧
      findPosition s' pid = some r.updated ∧
      (0 < r.unitsKept →
        s'.accumulations = s.accumulations ++
          [{ level := P.level, buyPrice := P.price, units := r.unitsKept
             totalValue := (r.unitsKept : ℤ) * P.price, originalPositionId := P.id }]) ∧
      (r.unitsKept = 0 → s'.accumulations = s.accumulations) ∧
      (∀ st (q : ℚ) st' evs, processPriceUpdate st q = .ok (st', evs) →
        ∃ tail, st'.accumulations = st.accumulations ++ tail) := by
  have hid : P.id = pid := by
    have := List.find?_some hfind
    simpa using this
  refine ⟨_, _, closePosition_spec hfind, ?_, ?_, ?_, rfl, ?_, ?_, ?_,
    fun st q st' evs hrun => tick_acc_append hrun⟩
  · rfl
  · dsimp only
    omega
  · dsimp only
    omega
  · unfold findPosition at hfind ⊢
    dsimp only
    rw [List.find?_map]
    have hpred : ∀ x : Position,
        ((fun p => p.id == pid) ∘ fun p =>
          if p.id == pid then { P with status := PStatus.closed, closedPrice := some sp }
          else p) x = (x.id == pid) := by
      intro x
      by_cases hx : x.id = pid
      · simp [hx, hid]
      · simp [hx]
    rw [funext hpred, hfind]
    simp [hid]
  · intro hk
    dsimp only at hk ⊢
    rw [if_pos hk]
  · intro hk
    dsimp only at hk ⊢
    rw [if_neg (by omega), List.append_nil]

/-- C3 witness: the spec's scenario — 100 units bought at $50 with a
planned dollar amount of $3000, sold at $60: 50 units sold, 50 kept,
position closed, a 50-unit accumulation record at $50 appended. -/
theorem C3_witness :
    ∃ s' r, closePosition sPartial 1 60 = .ok (s', r) ∧
      r.unitsSold = min ⌊posPartial.dollarAmount / 60⌋ posPartial.units ∧
      r.unitsKept = posPartial.units - r.unitsSold ∧
      r.unitsSold + r.unitsKept = posPartial.units ∧
      r.updated.status = PStatus.closed ∧
      findPosition s' 1 = some r.updated ∧
      (0 < r.unitsKept →
        s'.accumulations = sPartial.accumulations ++
          [{ level := posPartial.level, buyPrice := posPartial.price, units := r.unitsKept
             totalValue := (r.unitsKept : ℤ) * posPartial.price
             originalPositionId := posPartial.id }]) ∧
      (r.unitsKept = 0 → s'.accumulations = sPartial.accumulations) ∧
      (∀ st (q : ℚ) st' evs, processPriceUpdate st q = .ok (st', evs) →
        ∃ tail, st'.accumulations = st.accumulations ++ tail) :=
  C3_close_conservation sPartial 1 60 posPartial (by with_unfolding_all rfl)

/-! ## C6 -/

/-- C6 counterexample: closing the already-CLOSED position `posClosed6`
does not throw — `closePosition` returns normally (it only throws when the
row is missing); likewise closing the anchor position `posAnchor6`
succeeds; and when initialization finds no price data the highest price is
silently defaulted to 199.00 rather than failing. -/
theorem C6_counterexample :
    posClosed6.status = PStatus.closed ∧
    (∃ r, closePosition sClosed6 1 60 = .ok r) ∧
    posAnchor6.isAnchor = true ∧
    (∃ r, closePosition sAnchor6 1 60 = .ok r) ∧
    (initNoData initState).highestPrice = some 199 := by
  refine ⟨rfl, ⟨_, closePosition_spec (s := sClosed6) (by with_unfolding_all rfl)⟩,
    rfl, ⟨_, closePosition_spec (s := sAnchor6) (by with_unfolding_all rfl)⟩, ?_⟩
  with_unfolding_all rfl

/-- C6 (amended): computing levels or sell-trigger prices with an
uninitialized highest price and closing a nonexistent position do throw;
but closing an existing position never checks its status or anchor flag
(already-closed and anchor positions are re-closed without error), and the
no-data initialization path silently defaults the highest price to 199.00
instead of failing. -/
theorem C6_error_surface :
    (∀ s : EngineState, s.highestPrice = none →
        calculateLevels s =
          .error "Cannot calculate levels without highest price from database") ∧
    (∀ (s : EngineState) (k : ℕ), s.highestPrice = none →
        getSellTriggerPrice s k =
          .error "Cannot calculate sell trigger without highest price from database") ∧
    (∀ (s : EngineState) (pid : ℕ) (sp : ℚ), findPosition s pid = none →
        closePosition s pid sp = .error "Position not found") ∧
    (∀ (s : EngineState) (pid : ℕ) (sp : ℚ) (P : Position),
        findPosition s pid = some P → ∃ r, closePosition s pid sp = .ok r) ∧
    (initNoData initState).highestPrice = some 199 := by
  refine ⟨?_, ?_, ?_, ?_, ?_⟩
  · intro s hs
    unfold calculateLevels
    rw [hs]
  · intro s k hs
    unfold getSellTriggerPrice
    rw [hs]
  · intro s pid sp hf
    unfold closePosition
    rw [hf]
  · intro s pid sp P hf
    exact ⟨_, closePosition_spec hf⟩
  · with_unfolding_all rfl

/-- C6 witness: the error paths and the silent default at concrete inputs —
the fresh engine has no highest price, so `calculateLevels` and
`getSellTriggerPrice` throw; position 7 does not exist in `sClosed6`, so
closing it throws; position 1 does exist (already CLOSED), so closing it
succeeds. -/
theorem C6_error_surface_witness :
    calculateLevels initState =
      .error "Cannot calculate levels without highest price from database" ∧
    getSellTriggerPrice initState 1 =
      .error "Cannot calculate sell trigger without highest price from database" ∧
    closePosition sClosed6 7 60 = .error "Position not found" ∧
    (∃ r, closePosition sClosed6 1 60 = .ok r) :=
  ⟨C6_error_surface.1 initState rfl,
   C6_error_surface.2.1 initState 1 rfl,
   C6_error_surface.2.2.1 sClosed6 7 60 (by with_unfolding_all rfl),
   C6_error_surface.2.2.2.1 sClosed6 1 60 posClosed6 (by with_unfolding_all rfl)⟩

/-! ## C7 -/

/-- C7 counterexample: the state `sSellable` holds an active non-anchor
level-2 position whose sell trigger is $199.86.  Observing 199.87 — a price
that is not a new high (199.87 < 200) and crosses no untriggered level —
nevertheless emits a sell event and changes the state (level 2 flips to
Sold and the stored last price changes), so the claimed idempotence fails
as stated. -/
theorem C7_counterexample :
    sSellable.highestPrice = some 200 ∧ (19987/100 : ℚ) ≤ 200 ∧
    getAllTriggeredLevels sSellable (19987/100) sSellable.lastPrice = [] ∧
    ∃ st evs, processPriceUpdate sSellable (19987/100) = .ok (st, evs) ∧
      evs ≠ [] ∧ st.stateBelow 2 ≠ sSellable.stateBelow 2 ∧
      st.lastPrice ≠ sSellable.lastPrice := by
  refine ⟨rfl, by norm_num, by with_unfolding_all decide, ?_⟩
  have hok : (processPriceUpdate sSellable (19987/100)).toOption.isSome = true := by
    with_unfolding_all decide
  obtain ⟨r, hr⟩ : ∃ r, processPriceUpdate sSellable (19987/100) = .ok r := by
    cases hx : processPriceUpdate sSellable (19987/100) with
    | ok r => exact ⟨r, rfl⟩
    | error e => rw [hx] at hok; simp [Except.toOption] at hok
  obtain ⟨st, evs⟩ := r
  refine ⟨st, evs, hr, ?_, ?_, ?_⟩
  · have : (match processPriceUpdate sSellable (19987/100) with
        | .ok r => !r.2.isEmpty
        | .error _ => false) = true := by with_unfolding_all decide
    rw [hr] at this
    simp only [Bool.not_eq_true'] at this
    intro hnil
    rw [hnil] at this
    simp at this
  · have : (match processPriceUpdate sSellable (19987/100) with
        | .ok r => r.1.stateBelow 2 == LvlState.sold
        | .error _ => false) = true := by with_unfolding_all decide
    rw [hr] at this
    have h2 : st.stateBelow 2 = LvlState.sold := by
      simpa using this
    rw [h2]
    decide
  · obtain ⟨-, -, -, -, -, s3, -, -, hs', -⟩ := tick_parts hr
    have h2 : st.lastPrice = some (19987/100 : ℚ) := by rw [hs']
    rw [h2]
    show some (19987/100 : ℚ) ≠ some (1999/10)
    simp only [ne_eq, Option.some.injEq]
    norm_num

/-- C7 (amended): a price observation that crosses no untriggered level, is
not a new high, *and flags no sell*, emits zero events and leaves every
engine-state component unchanged except the stored last price, which always
becomes the observed price (so the state is bit-for-bit unchanged only when
the observed price equals the previous last price). -/
theorem C7_quiescent_tick (s : EngineState) (h p : ℚ)
    (hh : s.highestPrice = some h) (hnp : p ≤ h)
    (hsell : checkSellTriggersPS s p = .ok [])
    (hbuy : getAllTriggeredLevels s p s.lastPrice = []) :
    processPriceUpdate s p = .ok ({ s with lastPrice := some p }, []) := by
  have hngt : ¬ p > h := not_lt.2 hnp
  have hhigh : checkHigherPriceTrigger s p = [] := by
    unfold checkHigherPriceTrigger
    rw [hh]
    simp [hngt]
  have hcbt : checkBuyTriggers s p = (s, []) := by
    unfold checkBuyTriggers
    rw [hbuy]
    simp [updateAnchorAfterTriggers]
  have hgate : ((match s.highestPrice with
      | none => decide (p > 0)
      | some h' => decide (p > h')) && !s.testMode) = false := by
    rw [hh]
    simp [hngt]
  unfold processPriceUpdate
  rw [hsell]
  simp only [bind, Except.bind]
  rw [show processSells s p [] = .ok (s, []) from rfl]
  simp only [pure, Except.pure, hgate, if_false, Bool.false_eq_true]
  rw [hhigh]
  split
  · rw [hcbt]
    rfl
  · rfl

/-- C7 witness: observing 199 on the fresh 200-ladder engine (no positions,
no previous price, 199 below every trigger and every below-level already
above it) returns zero events and only updates the last price. -/
theorem C7_quiescent_tick_witness :
    processPriceUpdate sLadder200 199 = .ok ({ sLadder200 with lastPrice := some 199 }, []) :=
  C7_quiescent_tick sLadder200 200 199 rfl (by norm_num)
    (by with_unfolding_all rfl) (by with_unfolding_all decide)

/-! ## C9 -/

/-- C9: replaying the concrete trace `demoTrace` (high 200; prices 187,
219.07, 186) leaves the engine with TWO positions flagged `isAnchor = true`
— the level-2 position from before the ladder recalculation (its flag is
never cleared when the anchor relocates to the new level 5) and the fresh
level-5 position — so "at most one Position has isAnchor=true" fails. -/
theorem C9_double_anchor :
    (runEngine.map fun st =>
      ((anchorFlagged st).map Position.id,
       (anchorFlagged st).length,
       ((anchorFlagged st).filter fun pos => pos.status == PStatus.active).length,
       st.anchorLevel)).toOption = some ([1, 3], 2, 2, some 5) := by
  with_unfolding_all decide

/-! ## C1 -/

theorem levelPriceBelow_cents (b : ℚ) (i : ℕ) :
    ∃ n : ℤ, levelPriceBelow b i = (n : ℚ) / 100 :=
  round2_isCents _

theorem levelPriceAbove_cents (b : ℚ) (i : ℕ) :
    ∃ n : ℤ, levelPriceAbove b i = (n : ℚ) / 100 :=
  round2_isCents _

/-- The rounding inside `getSellTriggerPrice` is the identity: each cascade
input is already a whole number of cents, so the code's trigger equals the
specification's un-rounded cascade value. -/
theorem sellTriggerAux_spec {b h : ℚ} (hcents : ∃ n : ℤ, h = (n : ℚ) / 100)
    {k : ℕ} (hk1 : 1 ≤ k) (hk10 : k ≤ 10) :
    sellTriggerAux h (some b) k = some (specSellTriggerPrice b h k) := by
  unfold sellTriggerAux specSellTriggerPrice
  by_cases h1 : k = 1
  · rw [if_pos h1, if_pos h1]
    simp only [Option.map_some']
    rw [round2_cents (cents_sub_threshold (levelPriceAbove_cents b 1))]
  · rw [if_neg h1, if_neg h1]
    by_cases h2 : k = 2
    · rw [if_pos h2, if_pos h2]
      rw [round2_cents (cents_sub_threshold hcents)]
    · rw [if_neg h2, if_neg h2, if_pos (by omega : 3 ≤ k ∧ k ≤ 10)]
      simp only [Option.map_some']
      rw [round2_cents (cents_sub_threshold (levelPriceBelow_cents b (k - 2)))]

theorem specSellTriggerPrice_pos {b h : ℚ} (hb : 1 ≤ b) (hh : 1 ≤ h)
    {k : ℕ} (hk10 : k ≤ 10) : 0 < specSellTriggerPrice b h k := by
  unfold specSellTriggerPrice sellThreshold
  by_cases h1 : k = 1
  · rw [if_pos h1]
    have := levelPriceAbove_lb hb
    linarith
  · rw [if_neg h1]
    by_cases h2 : k = 2
    · rw [if_pos h2]
      linarith
    · rw [if_neg h2]
      have hle : k - 2 ≤ 10 := by omega
      have := levelPriceBelow_lb hb hle
      linarith

/-- C1: with a ladder from base `b`, highest price `h` (a whole number of
cents, as all recorded prices are), an Active position at below-level `k`
is flagged to sell at current price `p` iff `p` has reached the cascade
trigger — level 1: above-level-1 price − $0.14, level 2: `h` − $0.14,
level k ≥ 3: below-level (k−2) price − $0.14 — all read from the ladder the
tick evaluates before any reference-price update (`processPriceUpdate` runs
`checkSellTriggersPS` on the incoming state before `updateHighestPrice`);
a position at the anchor level is never flagged. -/
theorem C1_sell_flagging (s : EngineState) (b h p : ℚ) (P : Position) (k : ℕ)
    (hlad : s.ladderBase = some b) (hh : s.highestPrice = some h)
    (hb : 1 ≤ b) (hh1 : 1 ≤ h) (hcents : ∃ n : ℤ, h = (n : ℚ) / 100)
    (hk1 : 1 ≤ k) (hk10 : k ≤ 10)
    (hP : P ∈ s.positions) (hact : P.status = PStatus.active) (hlev : P.level = k) :
    ∃ flagged, checkSellTriggersPS s p = .ok flagged ∧
      (s.anchorLevel ≠ some k →
        ((∃ o ∈ flagged, o.position = P) ↔ specSellTriggerPrice b h k ≤ p)) ∧
      (s.anchorLevel = some k → ∀ o ∈ flagged, o.position ≠ P) := by
  have haux : sellTriggerAux h s.ladderBase k = some (specSellTriggerPrice b h k) := by
    rw [hlad]
    exact sellTriggerAux_spec hcents hk1 hk10
  have hpos := specSellTriggerPrice_pos hb hh1 hk10
  have hnone : ∀ pos : Position, sellTriggerAux h s.ladderBase pos.level = none →
      sellOrderOf s h p pos = none := by
    intro pos hta
    unfold sellOrderOf
    rw [hta]
  have hsome : ∀ (pos : Position) (t : ℚ),
      sellTriggerAux h s.ladderBase pos.level = some t →
      sellOrderOf s h p pos =
        if t ≠ 0 ∧ p ≥ t ∧ isAnchorLevel s pos.level = false then
          some { position := pos, sellTriggerPrice := t, sellLevel := pos.level }
        else none := by
    intro pos t hta
    unfold sellOrderOf
    rw [hta]
  refine ⟨_, by unfold checkSellTriggersPS; rw [hh], ?_, ?_⟩
  · intro hanch
    constructor
    · rintro ⟨o, ho, hop⟩
      rcases List.mem_filterMap.1 ho with ⟨pos, hmem, hfo⟩
      rcases hta : sellTriggerAux h s.ladderBase pos.level with _ | t
      · rw [hnone pos hta] at hfo
        cases hfo
      · rw [hsome pos t hta] at hfo
        by_cases hcond : t ≠ 0 ∧ p ≥ t ∧ isAnchorLevel s pos.level = false
        · rw [if_pos hcond] at hfo
          have ho' := Option.some.inj hfo
          have hposP : pos = P := by rw [← hop, ← ho']
          rw [hposP, hlev, haux] at hta
          cases Option.some.inj hta
          exact hcond.2.1
        · rw [if_neg hcond] at hfo
          cases hfo
    · intro hple
      refine ⟨{ position := P, sellTriggerPrice := specSellTriggerPrice b h k
                sellLevel := P.level }, List.mem_filterMap.2 ⟨P, ?_, ?_⟩, rfl⟩
      · rw [List.mem_mergeSort]
        exact List.mem_filter.2 ⟨hP, by simp [hact]⟩
      · have hanchb : isAnchorLevel s P.level = false := by
          rw [isAnchorLevel, hlev]
          exact beq_eq_false_iff_ne.2 hanch
        have htaP : sellTriggerAux h s.ladderBase P.level = some (specSellTriggerPrice b h k) := by
          rw [hlev]
          exact haux
        rw [hsome P (specSellTriggerPrice b h k) htaP,
          if_pos ⟨ne_of_gt hpos, hple, hanchb⟩, hlev]
  · intro hanch o ho hop
    rcases List.mem_filterMap.1 ho with ⟨pos, hmem, hfo⟩
    rcases hta : sellTriggerAux h s.ladderBase pos.level with _ | t
    · rw [hnone pos hta] at hfo
      cases hfo
    · rw [hsome pos t hta] at hfo
      by_cases hcond : t ≠ 0 ∧ p ≥ t ∧ isAnchorLevel s pos.level = false
      · rw [if_pos hcond] at hfo
        have ho' := Option.some.inj hfo
        have hposP : pos = P := by rw [← hop, ← ho']
        have := hcond.2.2
        rw [hposP, hlev, isAnchorLevel, hanch] at this
        simp at this
      · rw [if_neg hcond] at hfo
        cases hfo

/-- C1 witness: the active level-1 position of `sHold1` (ladder and highest
200, anchor at level 2) at price 206 — the iff against the cascade trigger
205.86, and the never-flagged guarantee for the anchor level, hold. -/
theorem C1_sell_flagging_witness :
    ∃ flagged, checkSellTriggersPS sHold1 206 = .ok flagged ∧
      (sHold1.anchorLevel ≠ some 1 →
        ((∃ o ∈ flagged, o.position = posL1) ↔ specSellTriggerPrice 200 200 1 ≤ 206)) ∧
      (sHold1.anchorLevel = some 1 → ∀ o ∈ flagged, o.position ≠ posL1) :=
  C1_sell_flagging sHold1 200 200 206 posL1 1 rfl rfl (by norm_num) (by norm_num)
    ⟨20000, by norm_num⟩ (by norm_num) (by norm_num)
    (List.mem_singleton.2 rfl) rfl rfl

/-! ## C4 -/

theorem foldl_max_le : ∀ (ts : List TrigLevel) (acc : ℕ),
    acc ≤ ts.foldl (fun m t => max m t.level) acc
  | [], _ => le_refl _
  | t :: ts, acc =>
      le_trans (le_max_left acc t.level) (foldl_max_le ts (max acc t.level))

theorem foldl_max_mem_le : ∀ (ts : List TrigLevel) (acc : ℕ),
    ∀ t ∈ ts, t.level ≤ ts.foldl (fun m t => max m t.level) acc
  | t0 :: ts, acc, t, ht => by
      rcases List.mem_cons.1 ht with rfl | htail
      · exact le_trans (le_max_right acc t.level) (foldl_max_le ts _)
      · exact foldl_max_mem_le ts (max acc t0.level) t htail

theorem foldl_max_attained : ∀ (ts : List TrigLevel) (acc : ℕ),
    ts.foldl (fun m t => max m t.level) acc = acc ∨
    ∃ t ∈ ts, ts.foldl (fun m t => max m t.level) acc = t.level
  | [], _ => Or.inl rfl
  | t0 :: ts, acc => by
      rw [List.foldl_cons]
      rcases foldl_max_attained ts (max acc t0.level) with heq | ⟨t, ht, heq⟩
      · rcases max_choice acc t0.level with hm | hm
        · exact Or.inl (heq.trans hm)
        · exact Or.inr ⟨t0, List.mem_cons_self _ _, heq.trans hm⟩
      · exact Or.inr ⟨t, List.mem_cons_of_mem _ ht, heq⟩

theorem maxLevel_spec {ts : List TrigLevel} (hne : ts ≠ [])
    (hall : ∀ t ∈ ts, 1 ≤ t.level) :
    (∃ t ∈ ts, t.level = maxLevel ts) ∧ ∀ t ∈ ts, t.level ≤ maxLevel ts := by
  refine ⟨?_, fun t ht => foldl_max_mem_le ts 0 t ht⟩
  rcases foldl_max_attained ts 0 with heq | ⟨t, ht, heq⟩
  · rcases List.exists_mem_of_ne_nil ts hne with ⟨t0, ht0⟩
    have h1 := hall t0 ht0
    have h2 := foldl_max_mem_le ts 0 t0 ht0
    rw [maxLevel] at *
    omega
  · exact ⟨t, ht, heq.symm⟩

theorem updateAnchorAfterTriggers_anchor (s : EngineState) (ts : List TrigLevel)
    (hne : ts ≠ []) :
    (updateAnchorAfterTriggers s ts).anchorLevel =
      (match s.anchorLevel with
       | none => some (maxLevel ts)
       | some a => if maxLevel ts > a then some (maxLevel ts) else some a) := by
  unfold updateAnchorAfterTriggers
  rw [if_neg (by cases ts with | nil => exact absurd rfl hne | cons t ts => simp)]
  rcases hsa : s.anchorLevel with _ | a
  · simp [syncAnchorFlags, setAnchorLevel]
  · dsimp only
    split
    · simp [syncAnchorFlags, setAnchorLevel]
    · rw [hsa]

/-- C4: after the buy-triggered levels of a tick are processed, the anchor
becomes the deepest triggered level `d` (the largest level index, which for
a strictly decreasing ladder is equivalently the lowest triggered price),
but only if no anchor exists yet or `d`'s ladder price is strictly lower
than the current anchor's; ties and shallower levels leave the anchor where
it was. -/
theorem C4_anchor_deepest (s : EngineState) (b p : ℚ)
    (hlad : s.ladderBase = some b) (hb : 1 ≤ b)
    (ts : List TrigLevel) (hts : getAllTriggeredLevels s p s.lastPrice = ts)
    (hne : ts ≠ []) (d : ℕ) (hd : d = maxLevel ts) :
    (∃ t ∈ ts, t.level = d) ∧
    (∀ t ∈ ts, t.level ≤ d ∧ levelPriceBelow b d ≤ levelPriceBelow b t.level) ∧
    (s.anchorLevel = none → (checkBuyTriggers s p).1.anchorLevel = some d) ∧
    (∀ a, s.anchorLevel = some a →
      ((levelPriceBelow b d < levelPriceBelow b a →
          (checkBuyTriggers s p).1.anchorLevel = some d) ∧
       (levelPriceBelow b a ≤ levelPriceBelow b d →
          (checkBuyTriggers s p).1.anchorLevel = some a))) := by
  have hall : ∀ t ∈ ts, 1 ≤ t.level := by
    intro t ht
    exact (triggered_shape hlad (hts ▸ ht)).1
  obtain ⟨hattain, hbound⟩ := maxLevel_spec hne hall
  have hequiv : ∀ i j : ℕ, i < j → levelPriceBelow b j < levelPriceBelow b i :=
    fun i j hij => levelPriceBelow_strictAnti hb hij
  have hanch1 : (checkBuyTriggers s p).1.anchorLevel =
      (updateAnchorAfterTriggers ((getAllTriggeredLevels s p s.lastPrice).foldl
        (buyStep p) (s, [])).1 ts).anchorLevel := by
    unfold checkBuyTriggers
    rw [hts]
  have hanch2 : ((getAllTriggeredLevels s p s.lastPrice).foldl
      (buyStep p) (s, [])).1.anchorLevel = s.anchorLevel :=
    (foldl_buyStep_preserves _ _).2.2.1
  have hchar := updateAnchorAfterTriggers_anchor
    ((getAllTriggeredLevels s p s.lastPrice).foldl (buyStep p) (s, [])).1 ts hne
  rw [hanch2] at hchar
  rw [hanch1, hchar, ← hd]
  refine ⟨hd ▸ hattain, ?_, ?_, ?_⟩
  · intro t ht
    have hle : t.level ≤ d := hd ▸ hbound t ht
    refine ⟨hle, ?_⟩
    rcases lt_or_eq_of_le hle with hlt | heq
    · exact le_of_lt (hequiv _ _ hlt)
    · rw [heq]
  · intro hnone
    rw [hnone]
  · intro a hsa
    rw [hsa]
    constructor
    · intro hpr
      have hda : a < d := by
        by_contra hle
        push_neg at hle
        rcases lt_or_eq_of_le hle with hlt | heq
        · exact absurd (hequiv _ _ hlt) (not_lt.2 (le_of_lt hpr))
        · rw [heq] at hpr
          exact lt_irrefl _ hpr
      show (if d > a then some d else some a) = some d
      rw [if_pos hda]
    · intro hpr
      have hnda : ¬ d > a := by
        intro hda
        exact absurd (hequiv _ _ hda) (not_lt.2 hpr)
      show (if d > a then some d else some a) = some a
      rw [if_neg hnda]

/-- C4 witness: on the untouched 200-ladder with no previous price, a drop
to 182.89 triggers levels 1 and 2; the deepest is level 2 ($188), and with
no anchor set the anchor becomes level 2. -/
theorem C4_anchor_deepest_witness :
    (∃ t ∈ getAllTriggeredLevels sLadder200 (18289/100) sLadder200.lastPrice,
        t.level = 2) ∧
    (∀ t ∈ getAllTriggeredLevels sLadder200 (18289/100) sLadder200.lastPrice,
        t.level ≤ 2 ∧ levelPriceBelow 200 2 ≤ levelPriceBelow 200 t.level) ∧
    (sLadder200.anchorLevel = none →
        (checkBuyTriggers sLadder200 (18289/100)).1.anchorLevel = some 2) ∧
    (∀ a, sLadder200.anchorLevel = some a →
      ((levelPriceBelow 200 2 < levelPriceBelow 200 a →
          (checkBuyTriggers sLadder200 (18289/100)).1.anchorLevel = some 2) ∧
       (levelPriceBelow 200 a ≤ levelPriceBelow 200 2 →
          (checkBuyTriggers sLadder200 (18289/100)).1.anchorLevel = some a))) :=
  C4_anchor_deepest sLadder200 200 (18289/100) rfl (by norm_num) _ rfl
    (by with_unfolding_all decide) 2 (by with_unfolding_all decide)

/-! ## C5 -/

theorem relocFold_spec (q : ℚ) :
    ∀ (l : List (ℕ × ℚ)) (cl : ℕ) (sd : ℚ),
      ∃ cl' sd', l.foldl (relocStep q) (some (cl, sd)) = some (cl', sd') ∧
        sd' ≤ sd ∧ (∀ e ∈ l, sd' ≤ |e.2 - q|) ∧
        ((cl' = cl ∧ sd' = sd) ∨ ∃ e ∈ l, cl' = e.1 ∧ sd' = |e.2 - q|)
  | [], cl, sd => ⟨cl, sd, rfl, le_refl _, by simp, Or.inl ⟨rfl, rfl⟩⟩
  | e :: l, cl, sd => by
      rw [List.foldl_cons]
      by_cases hlt : |e.2 - q| < sd
      · have hstep : relocStep q (some (cl, sd)) e = some (e.1, |e.2 - q|) := by
          unfold relocStep
          dsimp only
          rw [if_pos hlt]
        rw [hstep]
        obtain ⟨cl', sd', heq, hle, hall, hatt⟩ := relocFold_spec q l e.1 (|e.2 - q|)
        refine ⟨cl', sd', heq, le_trans hle (le_of_lt hlt), ?_, ?_⟩
        · intro e' he'
          rcases List.mem_cons.1 he' with rfl | hmem
          · exact hle
          · exact hall e' hmem
        · rcases hatt with ⟨h1, h2⟩ | ⟨e', he', h1, h2⟩
          · exact Or.inr ⟨e, List.mem_cons_self _ _, h1, h2⟩
          · exact Or.inr ⟨e', List.mem_cons_of_mem _ he', h1, h2⟩
      · have hstep : relocStep q (some (cl, sd)) e = some (cl, sd) := by
          unfold relocStep
          dsimp only
          rw [if_neg hlt]
        rw [hstep]
        obtain ⟨cl', sd', heq, hle, hall, hatt⟩ := relocFold_spec q l cl sd
        push_neg at hlt
        refine ⟨cl', sd', heq, hle, ?_, ?_⟩
        · intro e' he'
          rcases List.mem_cons.1 he' with rfl | hmem
          · exact le_trans hle hlt
          · exact hall e' hmem
        · rcases hatt with hsame | ⟨e', he', h1, h2⟩
          · exact Or.inl hsame
          · exact Or.inr ⟨e', List.mem_cons_of_mem _ he', h1, h2⟩

theorem relocClosest_spec (entries : List (ℕ × ℚ)) (q : ℚ) (hne : entries ≠ []) :
    ∃ j pr, relocClosest entries q = some j ∧ (j, pr) ∈ entries ∧
      ∀ e ∈ entries, |pr - q| ≤ |e.2 - q| := by
  rcases entries with _ | ⟨e0, l⟩
  · exact absurd rfl hne
  · unfold relocClosest
    rw [List.foldl_cons]
    rw [show relocStep q none e0 = some (e0.1, |e0.2 - q|) from rfl]
    obtain ⟨cl', sd', heq, hle, hall, hatt⟩ := relocFold_spec q l e0.1 (|e0.2 - q|)
    rw [heq]
    rcases hatt with ⟨h1, h2⟩ | ⟨e', he', h1, h2⟩
    · refine ⟨cl', e0.2, rfl, ?_, ?_⟩
      · rw [h1]
        exact List.mem_cons_self _ _
      · intro e he
        rcases List.mem_cons.1 he with rfl | hmem
        · exact le_refl _
        · exact h2 ▸ hall e hmem
    · refine ⟨cl', e'.2, rfl, ?_, ?_⟩
      · rw [h1]
        exact List.mem_cons_of_mem _ he'
      · intro e he
        rcases List.mem_cons.1 he with rfl | hmem
        · exact h2 ▸ hle
        · exact h2 ▸ hall e hmem

theorem updateHighestPrice_ladder_no_recalc {s : EngineState} {b h p : ℚ}
    (hlad : s.ladderBase = some b) (hh : s.highestPrice = some h)
    (hnorec : ¬ levelPriceAbove b 1 ≤ p) :
    (updateHighestPrice s p).ladderBase = some b := by
  unfold updateHighestPrice
  rw [hh]
  have hsr : shouldRecalculateLevels s p = false := by
    unfold shouldRecalculateLevels
    rw [hlad]
    exact decide_eq_false hnorec
  split
  · rw [hsr]
    simp only [Bool.false_eq_true, if_false]
    exact hlad
  · exact hlad

theorem updateHighestPrice_recalc_ladder {s : EngineState} {b h p : ℚ}
    (hlad : s.ladderBase = some b) (hh : s.highestPrice = some h)
    (hgt : h < p) (hrec : levelPriceAbove b 1 ≤ p) :
    (updateHighestPrice s p).ladderBase = some p ∧
    (updateHighestPrice s p).highestPrice = some p := by
  unfold updateHighestPrice
  rw [hh]
  rw [if_pos (by simpa using hgt)]
  have hsr : shouldRecalculateLevels s p = true := by
    unfold shouldRecalculateLevels
    rw [hlad]
    exact decide_eq_true hrec
  rw [hsr, if_pos rfl]
  generalize (match s.anchorLevel with
    | some a => belowLevelPrice s a
    | none => none) = oap
  rcases oap with _ | q
  · exact ⟨rfl, rfl⟩
  · dsimp only
    split
    · obtain ⟨hh', hlad', -⟩ := relocate_preserves
        { s with highestPrice := some p, ladderBase := some p } q
      exact ⟨hlad', hh'⟩
    · exact ⟨rfl, rfl⟩

theorem updateHighestPrice_recalc_anchor {s : EngineState} {b h p : ℚ}
    (hlad : s.ladderBase = some b) (hh : s.highestPrice = some h)
    (hgt : h < p) (hrec : levelPriceAbove b 1 ≤ p)
    {a : ℕ} (hsa : s.anchorLevel = some a) (ha1 : 1 ≤ a) (ha10 : a ≤ 10)
    (hnz : levelPriceBelow b a ≠ 0) :
    ∃ j pr, (updateHighestPrice s p).anchorLevel = some j ∧
      (j, pr) ∈ ((List.range' 1 10).map fun i => (i, levelPriceBelow p i)) ∧
      ∀ e ∈ ((List.range' 1 10).map fun i => (i, levelPriceBelow p i)),
        |pr - levelPriceBelow b a| ≤ |e.2 - levelPriceBelow b a| := by
  unfold updateHighestPrice
  rw [hh]
  rw [if_pos (by simpa using hgt)]
  have hsr : shouldRecalculateLevels s p = true := by
    unfold shouldRecalculateLevels
    rw [hlad]
    exact decide_eq_true hrec
  rw [hsr, if_pos rfl, hsa]
  have hbp : belowLevelPrice s a = some (levelPriceBelow b a) := by
    unfold belowLevelPrice
    rw [hlad]
    simp [ha1, ha10]
  dsimp only
  rw [hbp]
  dsimp only
  rw [if_pos hnz]
  have hentries : ∀ s' : EngineState, s'.ladderBase = some p →
      belowEntries s' = ((List.range' 1 10).map fun i => (i, levelPriceBelow p i)) := by
    intro s' h'
    unfold belowEntries
    rw [h']
  obtain ⟨j, pr, hrc, hmem, hmin⟩ :=
    relocClosest_spec ((List.range' 1 10).map fun i => (i, levelPriceBelow p i))
      (levelPriceBelow b a) (by simp [List.range'])
  refine ⟨j, pr, ?_, hmem, hmin⟩
  unfold relocateAnchorToClosestLevel
  rw [hentries _ rfl, hrc]
  rfl

theorem getAllTriggeredLevels_nil {s : EngineState} {b p : ℚ}
    (hlad : s.ladderBase = some b)
    (hp : ∀ i : ℕ, 1 ≤ i → i ≤ 10 → levelPriceBelow b i < p)
    (lastPrice : Option ℚ) :
    getAllTriggeredLevels s p lastPrice = [] := by
  unfold getAllTriggeredLevels
  split
  · rfl
  · have hnil : ((belowEntries s).filterMap fun e =>
        (if (decide (p ≤ e.2) &&
            (match lastPrice with | none => true | some q => decide (q > e.2))) = true then
          match s.stateBelow e.1 with
          | LvlState.bought => none
          | st => some (⟨e.1, e.2, -((e.1 : ℚ) * 3), st == LvlState.sold,
              s.buyCountBelow e.1⟩ : TrigLevel)
        else none)) = [] := by
      apply List.filterMap_eq_nil_iff.2
      intro e he
      obtain ⟨he1, he10, hepr⟩ := (mem_belowEntries hlad).1 he
      have hlt : e.2 < p := by
        rw [hepr]
        exact hp e.1 he1 he10
      rw [if_neg]
      simp [not_le.2 hlt]
    dsimp only
    rw [hnil, List.mergeSort_nil]

theorem checkBuyTriggers_noop {s : EngineState} {b p : ℚ}
    (hlad : s.ladderBase = some b)
    (hp : ∀ i : ℕ, 1 ≤ i → i ≤ 10 → levelPriceBelow b i < p) :
    checkBuyTriggers s p = (s, []) := by
  unfold checkBuyTriggers
  rw [getAllTriggeredLevels_nil hlad hp s.lastPrice]
  simp [updateAnchorAfterTriggers]

/-- C5: once levels exist, a tick recomputes the ladder only when the price
is a new high that reaches the first above-level; and when it does, the
ladder is rebuilt from the new price and the anchor relocates to the
below-level of the new ladder whose price is closest in absolute value to
the old anchor's price. -/
theorem C5_recalc_and_relocation (s : EngineState) (b h p : ℚ)
    (hlad : s.ladderBase = some b) (hh : s.highestPrice = some h)
    (hb : 1 ≤ b) (hh1 : 1 ≤ h) (htm : s.testMode = false)
    (s' : EngineState) (evs : List Event)
    (hrun : processPriceUpdate s p = .ok (s', evs)) :
    (s'.ladderBase ≠ some b → (h < p ∧ levelPriceAbove b 1 ≤ p)) ∧
    ((h < p ∧ levelPriceAbove b 1 ≤ p) →
      (s'.ladderBase = some p ∧
       ∀ a, s.anchorLevel = some a → 1 ≤ a → a ≤ 10 →
         ∃ j, s'.anchorLevel = some j ∧ 1 ≤ j ∧ j ≤ 10 ∧
           ∀ i : ℕ, 1 ≤ i → i ≤ 10 →
             |levelPriceBelow p j - levelPriceBelow b a| ≤
               |levelPriceBelow p i - levelPriceBelow b a|)) := by
  obtain ⟨orders, s1, sevs, hso, hps, s3, bevs, hbuy, hs', -⟩ := tick_parts hrun
  obtain ⟨e1, e2, e3, e4, e5, -, -⟩ := processSells_preserves hps
  have h1h : s1.highestPrice = some h := e1.trans hh
  have h1l : s1.ladderBase = some b := e2.trans hlad
  have h1a : s1.anchorLevel = s.anchorLevel := e3
  have h1tm : s1.testMode = false := e5.trans htm
  rw [h1h, h1tm] at hbuy
  simp only [Bool.not_false, Bool.and_true] at hbuy
  have hs'lad : s'.ladderBase = s3.ladderBase := by rw [hs']
  have hs'anch : s'.anchorLevel = s3.anchorLevel := by rw [hs']
  constructor
  · intro hneq
    by_cases hgt : h < p
    · by_cases hrec : levelPriceAbove b 1 ≤ p
      · exact ⟨hgt, hrec⟩
      · exfalso
        have hulad : (if decide (p > h) = true then updateHighestPrice s1 p
            else s1).ladderBase = some b := by
          split
          · exact updateHighestPrice_ladder_no_recalc h1l h1h hrec
          · exact h1l
        apply hneq
        rw [hs'lad]
        split at hbuy
        · have h3 := congrArg Prod.fst hbuy
          simp only at h3
          rw [h3]
          exact ((checkBuyTriggers_preserves _ p).2.1).trans hulad
        · have h3 := congrArg Prod.fst hbuy
          simp only at h3
          rw [h3]
          exact hulad
    · exfalso
      have hdec : decide (p > h) = false := decide_eq_false hgt
      rw [hdec] at hbuy
      simp only [Bool.false_eq_true, if_false] at hbuy
      apply hneq
      rw [hs'lad]
      split at hbuy
      · have h3 := congrArg Prod.fst hbuy
        simp only at h3
        rw [h3]
        exact ((checkBuyTriggers_preserves _ p).2.1).trans h1l
      · have h3 := congrArg Prod.fst hbuy
        simp only at h3
        rw [h3]
        exact h1l
  · rintro ⟨hgt, hrec⟩
    have hdec : decide (p > h) = true := decide_eq_true hgt
    rw [hdec, if_pos rfl] at hbuy
    have hp1 : (1 : ℚ) ≤ p := le_of_lt (lt_of_le_of_lt hh1 hgt)
    obtain ⟨hulad, huhigh⟩ := updateHighestPrice_recalc_ladder h1l h1h hgt hrec
    have hs3u : s3 = updateHighestPrice s1 p := by
      split at hbuy
      · have hnoop : checkBuyTriggers (updateHighestPrice s1 p) p =
            (updateHighestPrice s1 p, []) := by
          apply checkBuyTriggers_noop hulad
          intro i hi1 hi10
          exact levelPriceBelow_lt_self hp1 hi1
        rw [hnoop] at hbuy
        exact congrArg Prod.fst hbuy
      · exact congrArg Prod.fst hbuy
    refine ⟨by rw [hs'lad, hs3u]; exact hulad, ?_⟩
    intro a hsa ha1 ha10
    have hnz : levelPriceBelow b a ≠ 0 := by
      have := levelPriceBelow_lb hb ha10
      intro hz
      rw [hz] at this
      norm_num at this
    obtain ⟨j, pr, huanch, hmem, hmin⟩ :=
      updateHighestPrice_recalc_anchor h1l h1h hgt hrec (h1a.trans hsa) ha1 ha10 hnz
    rcases List.mem_map.1 hmem with ⟨i0, hi0, heq⟩
    rcases List.mem_range'.1 hi0 with ⟨k0, hk0, rfl⟩
    have hj : j = 1 + 1 * k0 := (congrArg Prod.fst heq).symm
    have hpr : pr = levelPriceBelow p (1 + 1 * k0) := (congrArg Prod.snd heq).symm
    refine ⟨j, by rw [hs'anch, hs3u]; exact huanch, by omega, by omega, ?_⟩
    intro i hi1 hi10
    have hie : ((i, levelPriceBelow p i) : ℕ × ℚ) ∈
        ((List.range' 1 10).map fun i => (i, levelPriceBelow p i)) :=
      List.mem_map.2 ⟨i, List.mem_range'.2 ⟨i - 1, by omega, by omega⟩, rfl⟩
    have := hmin _ hie
    rw [hpr] at this
    rw [hj]
    exact this

/-- C5 witness: the spec's scenario — ladder and highest 200, anchor at
level 2 ($188.00), observe 219.07 (past the first above-level $206): the
tick recalculates the ladder from 219.07 and the anchor relocates to the
new below-level closest to $188.00. -/
theorem C5_recalc_and_relocation_witness :
    ∃ s' evs, processPriceUpdate sAnchor6 (21907/100) = .ok (s', evs) ∧
      (((200 : ℚ) < 21907/100 ∧ levelPriceAbove 200 1 ≤ 21907/100) →
        (s'.ladderBase = some (21907/100) ∧
         ∀ a, sAnchor6.anchorLevel = some a → 1 ≤ a → a ≤ 10 →
           ∃ j, s'.anchorLevel = some j ∧ 1 ≤ j ∧ j ≤ 10 ∧
             ∀ i : ℕ, 1 ≤ i → i ≤ 10 →
               |levelPriceBelow (21907/100) j - levelPriceBelow 200 a| ≤
                 |levelPriceBelow (21907/100) i - levelPriceBelow 200 a|)) := by
  have hok : (processPriceUpdate sAnchor6 (21907/100)).toOption.isSome = true := by
    with_unfolding_all decide
  obtain ⟨r, hr⟩ : ∃ r, processPriceUpdate sAnchor6 (21907/100) = .ok r := by
    cases hx : processPriceUpdate sAnchor6 (21907/100) with
    | ok r => exact ⟨r, rfl⟩
    | error e => rw [hx] at hok; simp [Except.toOption] at hok
  obtain ⟨s', evs⟩ := r
  exact ⟨s', evs, hr,
    (C5_recalc_and_relocation sAnchor6 200 200 (21907/100) rfl rfl (by norm_num)
      (by norm_num) rfl s' evs hr).2⟩

end Pyramid
